import Mathlib

/-!
Verification of the matching-and-signaling broker implemented in
`src/backend/server.js` (the `UserManager` class and the socket event
handlers around it).

JavaScript objects are mutated through references: the same user object is
simultaneously reachable from the `users` Map and from the waiting-queue
`Set`s.  We therefore model object identity explicitly: a heap maps numeric
references to `User` records, the registry maps socket ids to references,
and each waiting bucket is an insertion-ordered list of references (a JS
`Set` of objects).  Statistics counters and the list of emitted socket
messages are part of the state so that observable behaviour can be compared.
Floating point session-duration averaging is modelled over `ℚ` with the same
formula; no claim depends on rounding.
-/

namespace Broker

/-- One user object, as built by `UserManager.addUser` (server.js:334-347).
`country`/`userAgent` are carried verbatim in the source and never read by
any branching code, so they are omitted. -/
structure User where
  id : String
  socketId : String
  gender : String
  preferredGender : String
  hasFilterCredit : Bool
  connectedAt : Nat
  lastActivity : Nat
  isMatched : Bool
  partnerId : Option String
  reportCount : Nat
deriving DecidableEq, Repr

/-- Payload of a `findPartner` message (the `userData` argument).
A missing/empty field of the JS object is modelled as `""` resp. `none`,
matching the truthiness tests in the source. -/
structure UserData where
  userId : String
  gender : String
  preferredGender : Option String
  hasFilterCredit : Bool
deriving DecidableEq, Repr

/-- A socket message emitted by the server (payloads abstracted). -/
inductive Emit where
  | matched (toSock partnerSock : String)
  | waiting (toSock : String)
  | partnerDisconnected (toSock : String)
  | offerMsg (toSock : String)
  | answerMsg (toSock : String)
  | iceMsg (toSock : String)
  | errMsg (toSock : String) (msg : String)
  | bannedMsg (toSock : String)
  | reportedMsg (toSock : String)
  | reportReceived (toSock : String)
deriving DecidableEq, Repr

/-- Association list lookup (JS `Map.get`). -/
def lookupA {α β : Type} [BEq α] (m : List (α × β)) (k : α) : Option β :=
  (m.find? (fun p => p.1 == k)).map (·.2)

/-- Association list update (JS `Map.set`): replaces in place when the key
is present (JS Maps keep the original insertion position), appends
otherwise. -/
def setA {α β : Type} [BEq α] (m : List (α × β)) (k : α) (v : β) : List (α × β) :=
  if (m.find? (fun p => p.1 == k)).isSome then
    m.map (fun p => if p.1 == k then (k, v) else p)
  else m ++ [(k, v)]

/-- Association list removal (JS `Map.delete`). -/
def eraseA {α β : Type} [BEq α] (m : List (α × β)) (k : α) : List (α × β) :=
  m.filter (fun p => p.1 != k)

/-- JS `String.prototype.toLowerCase`, as a character map (equivalent to
`String.toLower`, written over the character list so that it reduces). -/
def toLowerStr (s : String) : String := ⟨s.data.map Char.toLower⟩

/-- JS `Set.add` on a list kept in insertion order. -/
def sAdd (q : List Nat) (r : Nat) : List Nat :=
  if q.contains r then q else q ++ [r]

/-- The whole broker state: `UserManager` fields, the set of live socket
ids (`io.sockets.sockets`), and the log of emitted messages. -/
structure St where
  heap : List (Nat × User)
  nextRef : Nat
  users : List (String × Nat)
  qMale : List Nat
  qFemale : List Nat
  qOther : List Nat
  qAny : List Nat
  live : List String
  totalConnections : Nat
  totalMatches : Nat
  successfulCalls : Nat
  totalReports : Nat
  activeUsers : Nat
  peakConcurrentUsers : Nat
  averageSessionDuration : ℚ
  bannedUsers : List String
  reportHistory : List (String × String × Nat)
  sessionStartTimes : List (String × Nat)
  emits : List Emit
deriving DecidableEq, Repr

def initState : St where
  heap := []
  nextRef := 0
  users := []
  qMale := []
  qFemale := []
  qOther := []
  qAny := []
  live := []
  totalConnections := 0
  totalMatches := 0
  successfulCalls := 0
  totalReports := 0
  activeUsers := 0
  peakConcurrentUsers := 0
  averageSessionDuration := 0
  bannedUsers := []
  reportHistory := []
  sessionStartTimes := []
  emits := []

def heapOf (s : St) (r : Nat) : Option User := lookupA s.heap r

def regOf (s : St) (c : String) : Option Nat := lookupA s.users c

/-- `this.waitingQueue[name]` (server.js:304-309): only the four fixed
buckets exist; any other index yields `undefined`. -/
def St.bucket? (s : St) (name : String) : Option (List Nat) :=
  if name == "male" then some s.qMale
  else if name == "female" then some s.qFemale
  else if name == "other" then some s.qOther
  else if name == "any" then some s.qAny
  else none

def St.setBucket (s : St) (name : String) (q : List Nat) : St :=
  if name == "male" then { s with qMale := q }
  else if name == "female" then { s with qFemale := q }
  else if name == "other" then { s with qOther := q }
  else if name == "any" then { s with qAny := q }
  else s

/-- All queued references, in bucket order. -/
def queueRefs (s : St) : List Nat := s.qMale ++ s.qFemale ++ s.qOther ++ s.qAny

def emit (s : St) (e : Emit) : St := { s with emits := s.emits ++ [e] }

/-- `UserManager.areUsersCompatible` (server.js:465-483).  The JS guard
`user.preferredGender && ...` is a truthiness test on a string, hence the
`!= ""` conjunct. -/
def areUsersCompatible (banned : List String) (user1 user2 : User) : Bool :=
  if user1.socketId == user2.socketId then false
  else if user1.isMatched || user2.isMatched then false
  else if user1.id == user2.id then false
  else if banned.contains user1.id || banned.contains user2.id then false
  else if user2.preferredGender != "" && user2.preferredGender != "any" &&
          user2.hasFilterCredit && user2.preferredGender != user1.gender then false
  else if user1.preferredGender != "" && user1.preferredGender != "any" &&
          user1.hasFilterCredit && user1.preferredGender != user2.gender then false
  else true

/-- `userData.preferredGender ? userData.preferredGender.toLowerCase() : 'any'`
(server.js:338). -/
def normPref : Option String → String
  | none => "any"
  | some p => if p == "" then "any" else toLowerStr p

/-- The fresh user object built by `UserManager.addUser` (server.js:334-347). -/
def freshUser (socketId : String) (userData : UserData) (now : Nat) : User :=
  { id := userData.userId
    socketId := socketId
    gender := toLowerStr userData.gender
    preferredGender := normPref userData.preferredGender
    hasFilterCredit := userData.hasFilterCredit
    connectedAt := now
    lastActivity := now
    isMatched := false
    partnerId := none
    reportCount := 0 }

/-- `UserManager.addUser` (server.js:325-359).  Allocates a fresh object and
overwrites the registry entry for `socketId`; performs no queue or pairing
cleanup. -/
def addUser (s : St) (socketId : String) (userData : UserData) (now : Nat) :
    Except String (St × Nat) :=
  if userData.userId == "" || userData.gender == "" then
    .error "Invalid user data: missing userId or gender"
  else if s.bannedUsers.contains userData.userId then
    .error "User is banned from the service"
  else
    let user : User := freshUser socketId userData now
    let r := s.nextRef
    let users' := setA s.users socketId r
    .ok ({ s with
      heap := s.heap ++ [(r, user)]
      nextRef := r + 1
      users := users'
      sessionStartTimes := setA s.sessionStartTimes socketId now
      activeUsers := users'.length
      peakConcurrentUsers := max s.peakConcurrentUsers users'.length }, r)

/-- `UserManager.findUserBySocketId` / `this.users.get` (server.js:402-404),
returning the reference together with the object. -/
def findUserBySocketId (s : St) (socketId : String) : Option (Nat × User) :=
  match regOf s socketId with
  | none => none
  | some r =>
    match heapOf s r with
    | none => none
    | some u => some (r, u)

/-- `UserManager.updateUserActivity` (server.js:485-490). -/
def updateUserActivity (s : St) (socketId : String) (now : Nat) : St :=
  match findUserBySocketId s socketId with
  | none => s
  | some (r, u) => { s with heap := setA s.heap r { u with lastActivity := now } }

/-- `UserManager.removeFromQueue` (server.js:421-425): deletes the object
reference from every bucket. -/
def removeFromQueue (s : St) (r : Nat) : St :=
  { s with
    qMale := s.qMale.filter (· != r)
    qFemale := s.qFemale.filter (· != r)
    qOther := s.qOther.filter (· != r)
    qAny := s.qAny.filter (· != r) }

/-- Target bucket selection inside `UserManager.addToQueue`
(server.js:410-413). -/
def targetQueueName (user : User) : String :=
  if user.hasFilterCredit && user.preferredGender != "" && user.preferredGender != "any" then
    user.preferredGender
  else "any"

/-- `UserManager.addToQueue` (server.js:406-419). -/
def addToQueue (s : St) (r : Nat) : St :=
  match heapOf s r with
  | none => s
  | some user =>
    if user.isMatched then s
    else
      let s1 := removeFromQueue s r
      match s1.bucket? (targetQueueName user) with
      | none => s1
      | some q => s1.setBucket (targetQueueName user) (sAdd q r)

/-- The inner candidate scan of `UserManager.findMatch` (server.js:441-460):
candidates in insertion order, skipping self and already-matched objects. -/
def scanBucket (heap : List (Nat × User)) (banned : List String) (user : User) :
    List Nat → Option (Nat × User)
  | [] => none
  | r :: rest =>
    match lookupA heap r with
    | none => scanBucket heap banned user rest
    | some pm =>
      if pm.socketId == user.socketId || pm.isMatched then scanBucket heap banned user rest
      else if areUsersCompatible banned user pm then some (r, pm)
      else scanBucket heap banned user rest

/-- The outer bucket loop of `UserManager.findMatch` (server.js:437-461);
missing bucket names are skipped (`if (!queue) continue`). -/
def searchQueues (s : St) (user : User) : List String → Option (Nat × User)
  | [] => none
  | qn :: rest =>
    match s.bucket? qn with
    | none => searchQueues s user rest
    | some q =>
      match scanBucket s.heap s.bannedUsers user q with
      | some rv => some rv
      | none => searchQueues s user rest

/-- Bucket search order chosen by `UserManager.findMatch`
(server.js:430-435). -/
def searchOrder (user : User) : List String :=
  if user.hasFilterCredit && user.preferredGender != "" && user.preferredGender != "any" then
    [user.preferredGender, "any"]
  else ["male", "female", "other", "any"]

/-- `UserManager.findMatch` (server.js:427-463): returns the claimed
counterpart (post-mutation, as the JS caller sees the mutated object) and
the updated state. -/
def findMatch (s : St) (r : Nat) : St × Option (Nat × User) :=
  match heapOf s r with
  | none => (s, none)
  | some user =>
    if user.isMatched then (s, none)
    else
      match searchQueues s user (searchOrder user) with
      | none => (s, none)
      | some (mr, pm) =>
        let s1 := removeFromQueue (removeFromQueue s r) mr
        let user' := { user with isMatched := true, partnerId := some pm.socketId }
        let pm' := { pm with isMatched := true, partnerId := some user.socketId }
        let s2 := { s1 with
          heap := setA (setA s1.heap r user') mr pm'
          totalMatches := s1.totalMatches + 1 }
        (s2, some (mr, pm'))

/-- `UserManager.updateAverageSessionDuration` (server.js:391-400), over ℚ. -/
def updateAverageSessionDuration (s : St) (newDuration : Nat) : St :=
  if s.totalConnections == 0 then
    { s with averageSessionDuration := (newDuration : ℚ) }
  else
    { s with averageSessionDuration :=
        (s.averageSessionDuration * (s.totalConnections : ℚ) + (newDuration : ℚ)) /
          ((s.totalConnections : ℚ) + 1) }

/-- `UserManager.removeUser` (server.js:361-389). -/
def removeUser (s : St) (socketId : String) (now : Nat) : St :=
  match findUserBySocketId s socketId with
  | none => s
  | some (r, user) =>
    let s1 := match lookupA s.sessionStartTimes socketId with
      | some t0 =>
        { updateAverageSessionDuration s (now - t0) with
          sessionStartTimes := eraseA s.sessionStartTimes socketId }
      | none => s
    let s2 := removeFromQueue s1 r
    let s3 := match user.partnerId with
      | some p =>
        match findUserBySocketId s2 p with
        | some (pr, partner) =>
          { s2 with
            heap := setA s2.heap pr { partner with partnerId := none, isMatched := false }
            emits := s2.emits ++ [Emit.partnerDisconnected partner.socketId] }
        | none => s2
      | none => s2
    let users' := eraseA s3.users socketId
    { s3 with users := users', activeUsers := users'.length }

/-- First registry user (in `Map` insertion order) carrying a given
external id — the `for ... of this.users.values()` loop with `break` in
`UserManager.reportUser` (server.js:510-526). -/
def firstUserWithId (heap : List (Nat × User)) (uid : String) :
    List (String × Nat) → Option (Nat × User)
  | [] => none
  | (_, r) :: rest =>
    match lookupA heap r with
    | none => firstUserWithId heap uid rest
    | some u => if u.id == uid then some (r, u) else firstUserWithId heap uid rest

/-- `UserManager.reportUser` (server.js:492-530).  The `socket.disconnect(true)`
issued on auto-ban synchronously fires the disconnect handler, i.e.
`removeUser`, which is modelled inline. -/
def reportUser (s : St) (reporterId reportedUserId reason : String) (now : Nat) :
    St × Bool :=
  if reportedUserId == "" || reason == "" then (s, false)
  else if (s.reportHistory.find?
      (fun q => q.1 == reporterId && q.2.1 == reportedUserId)).isSome then
    (s, false)
  else
    let s1 := { s with
      reportHistory := s.reportHistory ++ [(reporterId, reportedUserId, now)]
      totalReports := s.totalReports + 1 }
    match firstUserWithId s1.heap reportedUserId s1.users with
    | none => (s1, true)
    | some (r, u) =>
      let u' := { u with reportCount := u.reportCount + 1 }
      let s2 := { s1 with heap := setA s1.heap r u' }
      if u'.reportCount ≥ 3 then
        let s3 := { s2 with bannedUsers :=
          if s2.bannedUsers.contains u'.id then s2.bannedUsers
          else s2.bannedUsers ++ [u'.id] }
        if s3.live.contains u'.socketId then
          let s4 := { s3 with
            emits := s3.emits ++ [Emit.bannedMsg u'.socketId]
            live := s3.live.filter (· != u'.socketId) }
          (removeUser s4 u'.socketId now, true)
        else (s3, true)
      else (s2, true)

def inactivityThreshold : Nat := 5 * 60 * 1000

/-- Body of the sweep loop in `UserManager.cleanupInactiveUsers`
(server.js:537-547): `removeUser` followed by `socket.disconnect(true)`. -/
def sweepList (now : Nat) : List String → St → St
  | [], s => s
  | c :: rest, s =>
    let s' := match findUserBySocketId s c with
      | some (_, u) =>
        if now - u.lastActivity > inactivityThreshold then
          let s1 := removeUser s c now
          { s1 with live := s1.live.filter (· != c) }
        else s
      | none => s
    sweepList now rest s'

/-- `UserManager.cleanupInactiveUsers` (server.js:532-559), including the
24h report-history pruning. -/
def cleanupInactiveUsers (s : St) (now : Nat) : St :=
  let s1 := sweepList now (s.users.map (·.1)) s
  { s1 with reportHistory :=
      s1.reportHistory.filter (fun q => ! decide (q.2.2 < now - 24 * 60 * 60 * 1000)) }

def validGenders : List String := ["male", "female", "other"]
def validPreferences : List String := ["male", "female", "other", "any"]

/-- Clearing both pairing fields of the object behind `x`, as the rollback
branch of the `findPartner` handler does (server.js:699-702). -/
def clearPairFields (h : List (Nat × User)) (x : Nat) : List (Nat × User) :=
  match lookupA h x with
  | some u => setA h x { u with isMatched := false, partnerId := none }
  | none => h

/-- The preference coercion at the top of the `findPartner` handler
(server.js:663-666): a truthy but invalid preference is replaced by
`'any'`. -/
def coercePref (d : UserData) : UserData :=
  match d.preferredGender with
  | some p =>
    if p != "" && !(validPreferences.contains (toLowerStr p)) then
      { d with preferredGender := some "any" }
    else d
  | none => d

/-- The `findPartner` socket handler (server.js:641-723). -/
def hFindPartner (s : St) (sock : String) (d : UserData) (now : Nat) : St :=
  let s := updateUserActivity s sock now
  if d.userId == "" || d.gender == "" then
    emit s (.errMsg sock "Missing required user data")
  else if !(validGenders.contains (toLowerStr d.gender)) then
    emit s (.errMsg sock "Invalid gender value")
  else
    let d := coercePref d
    match addUser s sock d now with
    | .error msg => emit s (.errMsg sock msg)
    | .ok (s1, r) =>
      match findMatch s1 r with
      | (s2, some (mr, pm)) =>
        let s3 := emit s2 (.matched sock pm.socketId)
        if s2.live.contains pm.socketId then
          emit s3 (.matched pm.socketId sock)
        else
          let s4 := { s3 with heap := clearPairFields (clearPairFields s3.heap r) mr }
          emit (addToQueue s4 r) (.waiting sock)
      | (s2, none) =>
        emit (addToQueue s2 r) (.waiting sock)

/-- The `offer` socket handler (server.js:726-767); `valid` abstracts the
`offer && offer.type && offer.sdp` payload check. -/
def hOffer (s : St) (sock : String) (valid : Bool) (now : Nat) : St :=
  let s := updateUserActivity s sock now
  if !valid then emit s (.errMsg sock "Invalid offer format")
  else
    match findUserBySocketId s sock with
    | none => emit s (.errMsg sock "User session not found")
    | some (r, user) =>
      match user.partnerId with
      | none => emit s (.errMsg sock "No partner available")
      | some p =>
        if !(s.live.contains p) then
          let s1 := emit s (.partnerDisconnected sock)
          { s1 with heap := setA s1.heap r { user with partnerId := none, isMatched := false } }
        else emit s (.offerMsg p)

/-- The `answer` socket handler (server.js:769-813): same shape as `offer`,
plus `statistics.successfulCalls++` after every successful relay. -/
def hAnswer (s : St) (sock : String) (valid : Bool) (now : Nat) : St :=
  let s := updateUserActivity s sock now
  if !valid then emit s (.errMsg sock "Invalid answer format")
  else
    match findUserBySocketId s sock with
    | none => emit s (.errMsg sock "User session not found")
    | some (r, user) =>
      match user.partnerId with
      | none => emit s (.errMsg sock "No partner available")
      | some p =>
        if !(s.live.contains p) then
          let s1 := emit s (.partnerDisconnected sock)
          { s1 with heap := setA s1.heap r { user with partnerId := none, isMatched := false } }
        else
          let s1 := emit s (.answerMsg p)
          { s1 with successfulCalls := s1.successfulCalls + 1 }

/-- The `ice-candidate` socket handler (server.js:815-852): failures are
silent (log only), the dead-partner branch unpairs the sender. -/
def hIce (s : St) (sock : String) (valid : Bool) (now : Nat) : St :=
  let s := updateUserActivity s sock now
  if !valid then s
  else
    match findUserBySocketId s sock with
    | none => s
    | some (r, user) =>
      match user.partnerId with
      | none => s
      | some p =>
        if !(s.live.contains p) then
          let s1 := emit s (.partnerDisconnected sock)
          { s1 with heap := setA s1.heap r { user with partnerId := none, isMatched := false } }
        else emit s (.iceMsg p)

/-- The `endCall` socket handler (server.js:855-880). -/
def hEndCall (s : St) (sock : String) (now : Nat) : St :=
  let s := updateUserActivity s sock now
  match findUserBySocketId s sock with
  | none => s
  | some (r, user) =>
    match user.partnerId with
    | none => s
    | some p =>
      let s1 := if s.live.contains p then emit s (.partnerDisconnected p) else s
      let s2 := match findUserBySocketId s1 p with
        | some (pr, partner) =>
          { s1 with heap := setA s1.heap pr { partner with partnerId := none, isMatched := false } }
        | none => s1
      match heapOf s2 r with
      | some u2 => { s2 with heap := setA s2.heap r { u2 with partnerId := none, isMatched := false } }
      | none => s2

/-- The `reportUser` socket handler (server.js:883-913).  The delayed
`setTimeout(() => reportedSocket.disconnect(true), 2000)` is a separate
later `disconnect` event in a serialized trace and is not folded in here. -/
def hReport (s : St) (sock reason : String) (now : Nat) : St :=
  let s := updateUserActivity s sock now
  match findUserBySocketId s sock with
  | none => s
  | some (_, user) =>
    match user.partnerId with
    | none => s
    | some p =>
      if reason == "" then s
      else
        match findUserBySocketId s p with
        | none => s
        | some (_, partner) =>
          match reportUser s user.id partner.id reason now with
          | (s1, true) =>
            let s2 := if s1.live.contains p then emit s1 (.reportedMsg p) else s1
            emit s2 (.reportReceived sock)
          | (s1, false) => emit s1 (.errMsg sock "Report could not be processed")

/-- The `disconnect` socket handler (server.js:922-926): the socket has left
`io.sockets.sockets` by the time the handler calls `removeUser`. -/
def hDisconnect (s : St) (sock : String) (now : Nat) : St :=
  removeUser { s with live := s.live.filter (· != sock) } sock now

/-- A new socket connection (server.js:618-627). -/
def hConnect (s : St) (sock : String) : St :=
  { s with
    totalConnections := s.totalConnections + 1
    live := if s.live.contains sock then s.live else s.live ++ [sock] }

/-- One serialized broker operation (inbound event or timer tick). -/
inductive Op where
  | connect (sock : String)
  | findPartner (sock : String) (d : UserData) (now : Nat)
  | offer (sock : String) (valid : Bool) (now : Nat)
  | answer (sock : String) (valid : Bool) (now : Nat)
  | iceCandidate (sock : String) (valid : Bool) (now : Nat)
  | endCall (sock : String) (now : Nat)
  | report (sock : String) (reason : String) (now : Nat)
  | disconnect (sock : String) (now : Nat)
  | sweep (now : Nat)
deriving DecidableEq, Repr

def step (s : St) : Op → St
  | .connect sock => hConnect s sock
  | .findPartner sock d now => hFindPartner s sock d now
  | .offer sock valid now => hOffer s sock valid now
  | .answer sock valid now => hAnswer s sock valid now
  | .iceCandidate sock valid now => hIce s sock valid now
  | .endCall sock now => hEndCall s sock now
  | .report sock reason now => hReport s sock reason now
  | .disconnect sock now => hDisconnect s sock now
  | .sweep now => cleanupInactiveUsers s now

def run (s : St) : List Op → St
  | [] => s
  | op :: rest => run (step s op) rest

/-- Trace restriction: every `findPartner` is issued by a currently
connected socket that is not currently registered (no renewed
announce-intent while a previous announcement is still in the registry). -/
def FreshTrace (s : St) : List Op → Bool
  | [] => true
  | op :: rest =>
    (match op with
     | .findPartner sock _ _ => (regOf s sock).isNone && s.live.contains sock
     | _ => true) && FreshTrace (step s op) rest

/-- Spec §3 "Pair" invariant, at registry level: if a registered
participant's `partnerId` names connection `b` and it is matched, then `b`
is registered, matched, and points back. -/
def PairingSymmetric (s : St) : Prop :=
  ∀ a b ra rb ua ub, regOf s a = some ra → heapOf s ra = some ua →
    regOf s b = some rb → heapOf s rb = some ub →
    ua.partnerId = some b → ua.isMatched = true →
    ub.partnerId = some a ∧ ub.isMatched = true

/-- Connection `c` is one side of a pair: some registered matched
participant's `partnerId` names it. -/
def pairedWith (s : St) (c : String) : Prop :=
  ∃ b rb ub, regOf s b = some rb ∧ heapOf s rb = some ub ∧
    ub.isMatched = true ∧ ub.partnerId = some c

/-- The four waiting buckets in declared order. -/
def buckets (s : St) : List (List Nat) := [s.qMale, s.qFemale, s.qOther, s.qAny]

/-- Whether some object in bucket `q` carries connection id `c`. -/
def inBucketB (s : St) (q : List Nat) (c : String) : Bool :=
  q.any (fun r =>
    match heapOf s r with
    | some u => u.socketId == c
    | none => false)

/-- Spec claim C2, stated over connection ids: at most one bucket holds a
given connection id, no connection id is queued while paired, and no
connection id is in two simultaneous pairs. -/
def ClaimC2 (s : St) : Prop :=
  (∀ c, ((buckets s).countP (fun q => inBucketB s q c)) ≤ 1) ∧
  (∀ c, (∃ q ∈ buckets s, inBucketB s q c = true) → ¬ pairedWith s c) ∧
  (∀ c b b' rb rb' ub ub', regOf s b = some rb → heapOf s rb = some ub →
    ub.isMatched = true → ub.partnerId = some c →
    regOf s b' = some rb' → heapOf s rb' = some ub' →
    ub'.isMatched = true → ub'.partnerId = some c → b = b')

/-- Spec claim C3: a renewed announce-intent for an already-present
connection id removes every prior queue membership and stale pairing, so
afterwards the id occurs at most once across all pools and no other
participant still points at it. -/
def ClaimC3 (s : St) (sock : String) (d : UserData) (now : Nat) : Prop :=
  match addUser s sock d now with
  | .error _ => True
  | .ok (s1, _) =>
    ((queueRefs s1).countP (fun x =>
        match heapOf s1 x with
        | some u => u.socketId == sock
        | none => false) ≤ 1) ∧
    (∀ c rc, c ≠ sock → regOf s1 c = some rc →
      (heapOf s1 rc).map (fun u => u.partnerId) ≠ some (some sock))

/-- Spec claim C5: the successful-call counter moves only on `answer`
relays and at most once per pair, even when several answers are relayed
within the same pair. -/
def ClaimC5 : Prop :=
  (∀ s sock valid now, (hOffer s sock valid now).successfulCalls = s.successfulCalls) ∧
  (∀ s sock valid now, (hIce s sock valid now).successfulCalls = s.successfulCalls) ∧
  (∀ s sock now now',
    (hAnswer (hAnswer s sock true now) sock true now').successfulCalls ≤
      s.successfulCalls + 1)

/-- The partner a relay from `sock` would currently reach: the sender must
be registered, have a partner id, and the partner socket must be live. -/
def relayTarget (s : St) (sock : String) : Option String :=
  match findUserBySocketId s sock with
  | some (_, u) =>
    match u.partnerId with
    | some p => if s.live.contains p then some p else none
    | none => none
  | none => none

/-- Modelled from the spec (§4.3 step 2): the bucket search order in the
spec's words — entitled participants with a non-`any` preference search
`[preference, any]`, everyone else `[male, female, other, any]`. -/
def specSearchOrder (u : User) : List String :=
  if u.hasFilterCredit && u.preferredGender != "any" then [u.preferredGender, "any"]
  else ["male", "female", "other", "any"]

/-- Modelled from the spec (§4.3 step 3): the combined FIFO candidate list,
bucket after bucket in search order. -/
def specCandidates (s : St) (u : User) : List Nat :=
  ((specSearchOrder u).map (fun n => (s.bucket? n).getD [])).flatten

/-- Compatibility of the candidate object behind a reference with `u`,
under the current heap and ban set. -/
def compatPred (heap : List (Nat × User)) (banned : List String) (u : User) (r : Nat) : Bool :=
  match lookupA heap r with
  | some v => areUsersCompatible banned u v
  | none => false

/-- Modelled from the spec (§4.3 steps 3-4): the first compatible candidate
in the combined order. -/
def specFirstCompatible (s : St) (u : User) : Option Nat :=
  (specCandidates s u).find? (compatPred s.heap s.bannedUsers u)

/-- Concrete test data: unfiltered male participant. -/
def exDataA : UserData :=
  { userId := "uA", gender := "male", preferredGender := none, hasFilterCredit := false }

/-- Concrete test data: unfiltered female participant. -/
def exDataB : UserData :=
  { userId := "uB", gender := "female", preferredGender := none, hasFilterCredit := false }

/-- Concrete test data: entitled female participant preferring females. -/
def exDataB2 : UserData :=
  { userId := "uB", gender := "female", preferredGender := some "female", hasFilterCredit := true }

/-- Concrete test data: participant with external id `X`. -/
def exDataX : UserData :=
  { userId := "X", gender := "male", preferredGender := none, hasFilterCredit := false }

/-- Trace: `s1` and `s2` announce and get paired, then `s2` re-announces
while still paired. -/
def ceTrace1 : List Op :=
  [.connect "s1", .connect "s2",
   .findPartner "s1" exDataA 10, .findPartner "s2" exDataB 11,
   .findPartner "s2" exDataB 12]

/-- Trace: `s1` announces twice with different target buckets, leaving its
stale first object in `any` and its fresh object in `female`. -/
def ceTrace2 : List Op :=
  [.connect "s1", .findPartner "s1" exDataB 10, .findPartner "s1" exDataB2 11]

/-- Trace producing one established pair `s1 ↔ s2`. -/
def pairedTrace : List Op :=
  [.connect "s1", .connect "s2",
   .findPartner "s1" exDataA 10, .findPartner "s2" exDataB 11]

/-- Trace: three live connections `a`, `b`, `c` all announcing external id
`X` (mutually incompatible, so all three wait in `any`). -/
def threeXTrace : List Op :=
  [.connect "a", .connect "b", .connect "c",
   .findPartner "a" exDataX 1, .findPartner "b" exDataX 2, .findPartner "c" exDataX 3]

/-- Registry state right after the renewed announce-intent of `s2` in the
paired state (used by the C3 witness). -/
def c3wS1 : St :=
  ((addUser (run initState pairedTrace) "s2" exDataB 12).toOption.getD (initState, 0)).1

/-- Spec claim C1: in every reachable state, registered pairing pointers are
symmetric and single-valued. -/
def ClaimC1 : Prop :=
  ∀ ops : List Op, PairingSymmetric (run initState ops) ∧
    (∀ c rc uc p q, regOf (run initState ops) c = some rc →
      heapOf (run initState ops) rc = some uc →
      uc.partnerId = some p → uc.partnerId = some q → p = q)

/-- The stale first object of `s1` after `ceTrace1` (still pointing at its
re-announced partner). -/
def ceStaleA : User :=
  { id := "uA", socketId := "s1", gender := "male", preferredGender := "any",
    hasFilterCredit := false, connectedAt := 10, lastActivity := 10,
    isMatched := true, partnerId := some "s2", reportCount := 0 }

/-- The fresh re-announced object of `s2` after `ceTrace1`. -/
def ceFreshB : User :=
  { id := "uB", socketId := "s2", gender := "female", preferredGender := "any",
    hasFilterCredit := false, connectedAt := 12, lastActivity := 12,
    isMatched := false, partnerId := none, reportCount := 0 }

/-- Concrete user values for witness instantiations. -/
def exUserA : User :=
  { id := "uA", socketId := "s1", gender := "male", preferredGender := "any",
    hasFilterCredit := false, connectedAt := 0, lastActivity := 0,
    isMatched := false, partnerId := none, reportCount := 0 }

def exUserB : User :=
  { id := "uB", socketId := "s2", gender := "female", preferredGender := "male",
    hasFilterCredit := true, connectedAt := 0, lastActivity := 0,
    isMatched := false, partnerId := none, reportCount := 0 }

/-- A registered, unmatched caller on socket `s2` used for the C6 witness. -/
def exCallerB : User :=
  { id := "uB", socketId := "s2", gender := "female", preferredGender := "any",
    hasFilterCredit := false, connectedAt := 0, lastActivity := 0,
    isMatched := false, partnerId := none, reportCount := 0 }

/-- A small concrete state: `s1` waiting in the `any` bucket, `s2`
registered and unmatched. -/
def c6State : St :=
  { initState with
    heap := [(0, exUserA), (1, exCallerB)]
    nextRef := 2
    users := [("s1", 0), ("s2", 1)]
    qAny := [0]
    live := ["s1", "s2"] }

/-- `c6State` with the queued candidate's socket dead (only `s2` live). -/
def c10State : St := { c6State with live := ["s2"] }

/-- Intermediate states of the C10 witness run. -/
def c10S1 : St :=
  ((addUser (updateUserActivity c10State "s2" 5) "s2" (coercePref exDataB) 5).toOption.getD
    (initState, 0)).1

def c10S2 : St := (findMatch c10S1 2).1

def c10PM : User := ((findMatch c10S1 2).2.getD (0, exUserA)).2


/-- The global state invariant maintained by every broker operation on
fresh-announce traces: heap keys are distinct and below the allocation
counter, registry keys are distinct, every registered reference resolves to
an object carrying its connection id on a live socket, `isMatched` mirrors
`partnerId`, pairing pointers are mutual, and queued references belong to
currently-registered unmatched objects, each bucket reference occurring
once. -/
structure Inv (s : St) : Prop where
  heapKeys : (s.heap.map (·.1)).Nodup
  heapLt : ∀ r ∈ s.heap.map (·.1), r < s.nextRef
  regKeys : (s.users.map (·.1)).Nodup
  regSock : ∀ c r, regOf s c = some r → ∃ u, heapOf s r = some u ∧ u.socketId = c
  regLive : ∀ c r, regOf s c = some r → s.live.contains c = true
  coupled : ∀ c r u, regOf s c = some r → heapOf s r = some u → u.isMatched = u.partnerId.isSome
  sym : ∀ c r u p, regOf s c = some r → heapOf s r = some u → u.partnerId = some p →
    ∃ pr pu, regOf s p = some pr ∧ heapOf s pr = some pu ∧ pu.partnerId = some c
  queued : ∀ r ∈ queueRefs s, ∃ u, heapOf s r = some u ∧ u.isMatched = false ∧
    u.partnerId = none ∧ regOf s u.socketId = some r
  queueNodup : (queueRefs s).Nodup

section AssocLemmas
set_option linter.unusedSectionVars false
variable {α β : Type} [BEq α] [LawfulBEq α] [DecidableEq α]

theorem lookupA_cons (p : α × β) (m : List (α × β)) (k : α) :
    lookupA (p :: m) k = if p.1 = k then some p.2 else lookupA m k := by
  by_cases h : p.1 = k <;> simp [lookupA, List.find?_cons, h]

theorem lookupA_nil (k : α) : lookupA ([] : List (α × β)) k = none := rfl

theorem lookupA_append (m₁ m₂ : List (α × β)) (k : α) :
    lookupA (m₁ ++ m₂) k =
      match lookupA m₁ k with
      | some v => some v
      | none => lookupA m₂ k := by
  induction m₁ with
  | nil => simp [lookupA]
  | cons p m ih =>
    rw [List.cons_append, lookupA_cons, lookupA_cons]
    by_cases h : p.1 = k <;> simp [h, ih]

theorem find?_isSome_iff_lookupA (m : List (α × β)) (k : α) :
    (m.find? (fun p => p.1 == k)).isSome = (lookupA m k).isSome := by
  unfold lookupA
  rcases m.find? (fun p => p.1 == k) with _ | w <;> simp

theorem setA_of_none {m : List (α × β)} {k : α} (v : β)
    (h : lookupA m k = none) : setA m k v = m ++ [(k, v)] := by
  unfold setA
  rw [if_neg]
  rw [find?_isSome_iff_lookupA, h]
  simp

theorem lookupA_mapset (m : List (α × β)) (k k' : α) (v : β) (h : k' ≠ k) :
    lookupA (m.map (fun p => if p.1 == k then (k, v) else p)) k' = lookupA m k' := by
  induction m with
  | nil => rfl
  | cons p m ih =>
    rw [List.map_cons]
    by_cases hp : p.1 = k
    · rw [if_pos (by simp [hp]), lookupA_cons, lookupA_cons,
        if_neg (fun hh => h hh.symm), if_neg (by rw [hp]; exact fun hh => h hh.symm)]
      exact ih
    · rw [if_neg (by simp [hp]), lookupA_cons, lookupA_cons]
      by_cases hp' : p.1 = k'
      · rw [if_pos hp', if_pos hp']
      · rw [if_neg hp', if_neg hp']
        exact ih

theorem lookupA_setA_self (m : List (α × β)) (k : α) (v : β) :
    lookupA (setA m k v) k = some v := by
  unfold setA
  split
  · next hsome =>
    induction m with
    | nil => simp at hsome
    | cons p m ih =>
      rw [List.find?_cons] at hsome
      by_cases hp : p.1 = k
      · simp [hp, lookupA_cons]
      · simp only [beq_eq_false_iff_ne.mpr hp] at hsome
        rw [List.map_cons, if_neg (by simp [hp]), lookupA_cons, if_neg hp]
        exact ih hsome
  · next hnone =>
    rw [lookupA_append]
    have h : lookupA m k = none := by
      rcases hx : lookupA m k with _ | w
      · rfl
      · rw [find?_isSome_iff_lookupA, hx] at hnone
        simp at hnone
    rw [h]
    simp [lookupA_cons]

theorem lookupA_setA_ne (m : List (α × β)) (k k' : α) (v : β) (h : k' ≠ k) :
    lookupA (setA m k v) k' = lookupA m k' := by
  unfold setA
  split
  · exact lookupA_mapset m k k' v h
  · rw [lookupA_append]
    rcases hx : lookupA m k' with _ | w
    · rw [lookupA_cons, if_neg (fun hh => h hh.symm), lookupA_nil]
    · rfl

theorem lookupA_eraseA_self (m : List (α × β)) (k : α) :
    lookupA (eraseA m k) k = none := by
  unfold eraseA
  induction m with
  | nil => rfl
  | cons p m ih =>
    rw [List.filter_cons]
    by_cases hp : p.1 = k
    · rw [if_neg (by simp [hp])]
      exact ih
    · rw [if_pos (by simp [hp]), lookupA_cons, if_neg hp]
      exact ih

theorem lookupA_eraseA_ne (m : List (α × β)) (k k' : α) (h : k' ≠ k) :
    lookupA (eraseA m k) k' = lookupA m k' := by
  unfold eraseA
  induction m with
  | nil => rfl
  | cons p m ih =>
    rw [List.filter_cons, lookupA_cons]
    by_cases hp : p.1 = k
    · rw [if_neg (by simp [hp]), if_neg (by rw [hp]; exact fun hh => h hh.symm), ih]
    · rw [if_pos (by simp [hp]), lookupA_cons]
      by_cases hp' : p.1 = k' <;> simp [hp', ih]

theorem keys_mapset (m : List (α × β)) (k : α) (v : β) :
    (m.map (fun p => if p.1 == k then (k, v) else p)).map (·.1) = m.map (·.1) := by
  induction m with
  | nil => rfl
  | cons p m ih =>
    rw [List.map_cons, List.map_cons, List.map_cons, ih]
    by_cases hp : p.1 = k
    · rw [if_pos (by simp [hp])]
      simp [hp]
    · rw [if_neg (by simp [hp])]

theorem keys_setA_of_some {m : List (α × β)} {k : α} (v : β)
    (h : (lookupA m k).isSome) :
    (setA m k v).map (·.1) = m.map (·.1) := by
  unfold setA
  rw [if_pos (by rw [find?_isSome_iff_lookupA]; exact h)]
  exact keys_mapset m k v

theorem mem_of_lookupA {m : List (α × β)} {k : α} {v : β}
    (h : lookupA m k = some v) : (k, v) ∈ m := by
  induction m with
  | nil => simp [lookupA] at h
  | cons p m ih =>
    rw [lookupA_cons] at h
    by_cases hp : p.1 = k
    · rw [if_pos hp] at h
      have : p = (k, v) := by
        rcases p with ⟨a, b⟩
        simp only at hp
        simp only [Option.some.injEq] at h
        simp [hp, h]
      simp [this]
    · rw [if_neg hp] at h
      exact List.mem_cons_of_mem _ (ih h)

theorem lookupA_isSome_of_mem {m : List (α × β)} {k : α} {v : β}
    (h : (k, v) ∈ m) : (lookupA m k).isSome := by
  induction m with
  | nil => simp at h
  | cons p m ih =>
    rw [lookupA_cons]
    by_cases hp : p.1 = k
    · simp [hp]
    · rw [if_neg hp]
      rcases List.mem_cons.mp h with h1 | h2
      · exact absurd (by rw [← h1]) hp
      · exact ih h2

theorem lookupA_eq_some_of_mem_nodup {m : List (α × β)} {k : α} {v : β}
    (hn : (m.map (·.1)).Nodup) (h : (k, v) ∈ m) : lookupA m k = some v := by
  induction m with
  | nil => simp at h
  | cons p m ih =>
    rw [List.map_cons, List.nodup_cons] at hn
    rw [lookupA_cons]
    rcases List.mem_cons.mp h with h1 | h2
    · rw [← h1]
      simp
    · by_cases hp : p.1 = k
      · exfalso
        apply hn.1
        rw [hp]
        exact List.mem_map.mpr ⟨(k, v), h2, rfl⟩
      · rw [if_neg hp]
        exact ih hn.2 h2

end AssocLemmas

theorem ifChain_eq (b1 b2 b3 b4 b5 b6 : Bool) :
    (if b1 then false else if b2 then false else if b3 then false
     else if b4 then false else if b5 then false else if b6 then false else true) =
    (!b1 && !b2 && !b3 && !b4 && !b5 && !b6) := by
  cases b1 <;> cases b2 <;> cases b3 <;> cases b4 <;> cases b5 <;> cases b6 <;> rfl

theorem beqSymm {α : Type} [BEq α] [LawfulBEq α] [DecidableEq α] (a b : α) :
    (a == b) = (b == a) := by
  by_cases h : a = b
  · simp [h]
  · simp [h, Ne.symm h]

theorem filter_filter_self {γ : Type} (p : γ → Bool) (l : List γ) :
    (l.filter p).filter p = l.filter p := by
  simp [List.filter_filter]

/-- `areUsersCompatible` as a single Boolean formula. -/
theorem areUsersCompatible_eq (banned : List String) (u1 u2 : User) :
    areUsersCompatible banned u1 u2 =
      (!(u1.socketId == u2.socketId) && !(u1.isMatched || u2.isMatched) &&
       !(u1.id == u2.id) && !(banned.contains u1.id || banned.contains u2.id) &&
       !(u2.preferredGender != "" && u2.preferredGender != "any" &&
         u2.hasFilterCredit && u2.preferredGender != u1.gender) &&
       !(u1.preferredGender != "" && u1.preferredGender != "any" &&
         u1.hasFilterCredit && u1.preferredGender != u2.gender)) := by
  unfold areUsersCompatible
  exact ifChain_eq _ _ _ _ _ _

theorem removeUser_live (s : St) (c : String) (t : Nat) :
    (removeUser s c t).live = s.live := by
  unfold removeUser updateAverageSessionDuration
  repeat' split
  all_goals dsimp only
  all_goals (repeat' split)
  all_goals rfl

theorem removeUser_users_of_some (s : St) (c : String) (t : Nat) {r : Nat} {u : User}
    (h : findUserBySocketId s c = some (r, u)) :
    (removeUser s c t).users = eraseA s.users c := by
  unfold removeUser updateAverageSessionDuration
  rw [h]
  dsimp only
  repeat' split
  all_goals try dsimp only
  all_goals rfl

theorem findUserBySocketId_removeUser_self (s : St) (c : String) (t : Nat) :
    findUserBySocketId (removeUser s c t) c = none := by
  rcases h : findUserBySocketId s c with _ | ⟨r, u⟩
  · unfold removeUser
    rw [h]
    exact h
  · have husers := removeUser_users_of_some s c t h
    unfold findUserBySocketId regOf
    rw [husers, lookupA_eraseA_self]

/-- C7: for every broker state, disconnecting the same connection twice in
succession — socket leaving the live set, then `removeUser` — produces
exactly the state (registry, pools, pairings, counters, notification log)
of a single disconnect: the second call is a no-op. -/
theorem c7_disconnect_idempotent (s : St) (sock : String) (t t' : Nat) :
    hDisconnect (hDisconnect s sock t) sock t' = hDisconnect s sock t := by
  unfold hDisconnect
  generalize hG : removeUser { s with live := s.live.filter (· != sock) } sock t = s1
  have hlive : s1.live = s.live.filter (· != sock) := by
    rw [← hG, removeUser_live]
  have hq : s1.live.filter (· != sock) = s1.live := by
    rw [hlive]
    exact filter_filter_self _ _
  rw [hq]
  have hnone : findUserBySocketId s1 sock = none := by
    rw [← hG]
    exact findUserBySocketId_removeUser_self _ sock t
  show removeUser { s1 with live := s1.live } sock t' = s1
  unfold removeUser
  rw [hnone]

/-- C8: the compatibility predicate of the matcher is symmetric in its two
participants, for every ban set. -/
theorem c8_areUsersCompatible_symm (banned : List String) (a b : User) :
    areUsersCompatible banned a b = areUsersCompatible banned b a := by
  rw [areUsersCompatible_eq, areUsersCompatible_eq,
    beqSymm b.socketId a.socketId, beqSymm b.id a.id]
  simp [Bool.or_comm, Bool.and_comm, Bool.and_assoc, Bool.and_left_comm]

/-- C9: a participant without filter entitlement is matchable regardless of
its stated preference and of the candidate's gender — compatibility reduces
to identity distinctness, unpaired states, no ban, and the candidate's own
entitled preference (if any) matching the participant's gender. -/
theorem c9_no_entitlement_never_blocks (banned : List String) (a b : User)
    (h : a.hasFilterCredit = false) :
    areUsersCompatible banned a b = true ↔
      (a.socketId ≠ b.socketId ∧ a.isMatched = false ∧ b.isMatched = false ∧
       a.id ≠ b.id ∧ banned.contains a.id = false ∧ banned.contains b.id = false ∧
       (b.hasFilterCredit = true → b.preferredGender ≠ "" → b.preferredGender ≠ "any" →
         b.preferredGender = a.gender)) := by
  rw [areUsersCompatible_eq, h]
  cases hm1 : a.isMatched <;> cases hm2 : b.isMatched <;> cases hc2 : b.hasFilterCredit <;>
    (simp [bne_iff_ne, not_or, and_assoc]; try tauto)

theorem findUserBySocketId_eq_some_iff (s : St) (c : String) (r : Nat) (u : User) :
    findUserBySocketId s c = some (r, u) ↔ regOf s c = some r ∧ heapOf s r = some u := by
  unfold findUserBySocketId
  constructor
  · intro h
    split at h
    · exact absurd h (by simp)
    · next rr hr =>
      split at h
      · exact absurd h (by simp)
      · next uu hu =>
        simp only [Option.some.injEq, Prod.mk.injEq] at h
        refine ⟨?_, ?_⟩
        · rw [hr, h.1]
        · rw [← h.1, hu, h.2]
  · rintro ⟨h1, h2⟩
    rw [h1]
    dsimp only
    rw [h2]

theorem updateUserActivity_frame (s : St) (c : String) (n : Nat) :
    (updateUserActivity s c n).users = s.users ∧
    (updateUserActivity s c n).live = s.live ∧
    (updateUserActivity s c n).successfulCalls = s.successfulCalls := by
  unfold updateUserActivity
  repeat' split
  all_goals exact ⟨rfl, rfl, rfl⟩

theorem findUserBySocketId_touch (s : St) (c : String) (n : Nat) :
    findUserBySocketId (updateUserActivity s c n) c =
      (findUserBySocketId s c).map (fun p => (p.1, { p.2 with lastActivity := n })) := by
  rcases h : findUserBySocketId s c with _ | ⟨r, u⟩
  · unfold updateUserActivity
    rw [h]
    dsimp only
    simp [h]
  · obtain ⟨hr, hh⟩ := (findUserBySocketId_eq_some_iff s c r u).mp h
    unfold updateUserActivity
    rw [h]
    dsimp only
    apply (findUserBySocketId_eq_some_iff _ c r _).mpr
    refine ⟨hr, ?_⟩
    show lookupA (setA s.heap r { u with lastActivity := n }) r = _
    exact lookupA_setA_self _ _ _

theorem relayTarget_touch (s : St) (c : String) (n : Nat) :
    relayTarget (updateUserActivity s c n) c = relayTarget s c := by
  unfold relayTarget
  rw [findUserBySocketId_touch]
  have hl : (updateUserActivity s c n).live = s.live := (updateUserActivity_frame s c n).2.1
  rw [hl]
  rcases h : findUserBySocketId s c with _ | ⟨r, u⟩
  · rfl
  · simp only [Option.map]

/-- C5 counterexample: in the paired state built by `pairedTrace`, two
successive well-formed `answer` relays from the same paired sender bump the
successful-call counter twice, refuting "at most once per pair". -/
theorem c5_counterexample : ¬ ClaimC5 := fun h =>
  absurd (h.2.2 (run initState pairedTrace) "s1" 12 13) (by decide)

/-- C5 amended: the successful-call counter is incremented exactly once per
successful `answer` relay (so several answers in one pair increment it
several times), and never by `offer` or `iceCandidate` relays. -/
theorem c5_amended_answer_counter :
    (∀ s sock valid now, (hOffer s sock valid now).successfulCalls = s.successfulCalls) ∧
    (∀ s sock valid now, (hIce s sock valid now).successfulCalls = s.successfulCalls) ∧
    (∀ s sock valid now, (hAnswer s sock valid now).successfulCalls =
      if valid && (relayTarget s sock).isSome then s.successfulCalls + 1
      else s.successfulCalls) := by
  refine ⟨?_, ?_, ?_⟩
  · intro s sock valid now
    unfold hOffer
    have hframe := (updateUserActivity_frame s sock now).2.2
    generalize hT : updateUserActivity s sock now = sT at hframe ⊢
    cases valid
    · simp [emit, hframe]
    · rcases hf : findUserBySocketId sT sock with _ | ⟨r, u⟩
      · simp [hf, emit, hframe]
      · rcases hp : u.partnerId with _ | p
        · simp [hf, hp, emit, hframe]
        · by_cases hl : p ∈ sT.live <;> simp [hf, hp, hl, emit, hframe]
  · intro s sock valid now
    unfold hIce
    have hframe := (updateUserActivity_frame s sock now).2.2
    generalize hT : updateUserActivity s sock now = sT at hframe ⊢
    cases valid
    · simp [emit, hframe]
    · rcases hf : findUserBySocketId sT sock with _ | ⟨r, u⟩
      · simp [hf, emit, hframe]
      · rcases hp : u.partnerId with _ | p
        · simp [hf, hp, emit, hframe]
        · by_cases hl : p ∈ sT.live <;> simp [hf, hp, hl, emit, hframe]
  · intro s sock valid now
    have htouch := relayTarget_touch s sock now
    have hframe := (updateUserActivity_frame s sock now).2.2
    unfold hAnswer
    rw [← htouch]
    generalize hT : updateUserActivity s sock now = sT at htouch hframe ⊢
    unfold relayTarget
    cases valid
    · simp [emit, hframe]
    · rcases hf : findUserBySocketId sT sock with _ | ⟨r, u⟩
      · simp [hf, emit, hframe]
      · rcases hp : u.partnerId with _ | p
        · simp [hf, hp, emit, hframe]
        · by_cases hl : p ∈ sT.live <;> simp [hf, hp, hl, emit, hframe]

/-- C1 counterexample: after `ceTrace1` (pairing `s1 ↔ s2`, then a renewed
`findPartner` from `s2`), the registered `s1` object still points at `s2`
and is matched, while the registered `s2` object has no partner — pairing
symmetry fails on this reachable state. -/
theorem c1_counterexample : ¬ ClaimC1 := fun h =>
  absurd ((h ceTrace1).1 "s1" "s2" 0 2 ceStaleA ceFreshB
      (by decide) (by decide) (by decide) (by decide) (by decide) (by decide))
    (by decide)

/-- C3 counterexample: in the paired state, a renewed announce-intent for
`s2` leaves the stale pairing in place — the registered `s1` object still
points at `s2` right after the upsert. -/
theorem c3_counterexample : ¬ ClaimC3 (run initState pairedTrace) "s2" exDataB 12 :=
  fun h => (h.2 "s1" 0 (by decide) (by decide)) (by decide)

theorem compat_false_of_self (banned : List String) (u pm : User)
    (h : (pm.socketId == u.socketId) = true) :
    areUsersCompatible banned u pm = false := by
  rw [areUsersCompatible_eq]
  have hx : (u.socketId == pm.socketId) = true := by
    rw [beqSymm]
    exact h
  simp [hx]

theorem compat_false_of_matched (banned : List String) (u pm : User)
    (h : pm.isMatched = true) :
    areUsersCompatible banned u pm = false := by
  rw [areUsersCompatible_eq, h]
  simp

theorem scanBucket_map_fst (heap : List (Nat × User)) (banned : List String) (u : User)
    (q : List Nat) :
    (scanBucket heap banned u q).map (·.1) = q.find? (compatPred heap banned u) := by
  induction q with
  | nil => rfl
  | cons r rest ih =>
    rw [List.find?_cons]
    unfold scanBucket
    rcases hl : lookupA heap r with _ | pm
    · dsimp only
      have hcp : compatPred heap banned u r = false := by simp [compatPred, hl]
      rw [hcp]
      exact ih
    · dsimp only
      rcases hskip : (pm.socketId == u.socketId || pm.isMatched) with _ | _
      · rw [if_neg (by simp)]
        rcases hc : areUsersCompatible banned u pm with _ | _
        · rw [if_neg (by simp)]
          have hcp : compatPred heap banned u r = false := by simp [compatPred, hl, hc]
          rw [hcp]
          exact ih
        · rw [if_pos rfl]
          have hcp : compatPred heap banned u r = true := by simp [compatPred, hl, hc]
          rw [hcp]
          rfl
      · rw [if_pos rfl]
        have hfalse : areUsersCompatible banned u pm = false := by
          rcases Bool.or_eq_true_iff.mp hskip with h1 | h2
          · exact compat_false_of_self banned u pm h1
          · exact compat_false_of_matched banned u pm h2
        have hcp : compatPred heap banned u r = false := by simp [compatPred, hl, hfalse]
        rw [hcp]
        exact ih

theorem scanBucket_heap (heap : List (Nat × User)) (banned : List String) (u : User)
    (q : List Nat) (mr : Nat) (pm : User)
    (h : scanBucket heap banned u q = some (mr, pm)) : lookupA heap mr = some pm := by
  induction q with
  | nil => exact absurd h (by simp [scanBucket])
  | cons r rest ih =>
    unfold scanBucket at h
    rcases hl : lookupA heap r with _ | v <;> rw [hl] at h
    · exact ih h
    · dsimp only at h
      rcases hskip : (v.socketId == u.socketId || v.isMatched) with _ | _
      · rw [if_neg (by simp [hskip])] at h
        rcases hc : areUsersCompatible banned u v with _ | _
        · rw [if_neg (by simp [hc])] at h
          exact ih h
        · rw [if_pos hc] at h
          simp only [Option.some.injEq, Prod.mk.injEq] at h
          rw [← h.1, hl]
          rw [h.2]
      · rw [if_pos hskip] at h
        exact ih h

theorem scanBucket_compat (heap : List (Nat × User)) (banned : List String) (u : User)
    (q : List Nat) (mr : Nat) (pm : User)
    (h : scanBucket heap banned u q = some (mr, pm)) :
    areUsersCompatible banned u pm = true := by
  induction q with
  | nil => exact absurd h (by simp [scanBucket])
  | cons r rest ih =>
    unfold scanBucket at h
    rcases hl : lookupA heap r with _ | v <;> rw [hl] at h
    · exact ih h
    · dsimp only at h
      rcases hskip : (v.socketId == u.socketId || v.isMatched) with _ | _
      · rw [if_neg (by simp [hskip])] at h
        rcases hc : areUsersCompatible banned u v with _ | _
        · rw [if_neg (by simp [hc])] at h
          exact ih h
        · rw [if_pos hc] at h
          simp only [Option.some.injEq, Prod.mk.injEq] at h
          rw [← h.2]
          exact hc
      · rw [if_pos hskip] at h
        exact ih h

theorem searchQueues_map_fst (s : St) (u : User) (names : List String) :
    (searchQueues s u names).map (·.1) =
      ((names.map (fun n => (s.bucket? n).getD [])).flatten).find?
        (compatPred s.heap s.bannedUsers u) := by
  induction names with
  | nil => rfl
  | cons qn rest ih =>
    rw [List.map_cons, List.flatten_cons, List.find?_append]
    unfold searchQueues
    rcases hb : s.bucket? qn with _ | q
    · dsimp only
      rw [ih]
      rfl
    · dsimp only
      rcases hs : scanBucket s.heap s.bannedUsers u q with _ | rv
      · have hmap := scanBucket_map_fst s.heap s.bannedUsers u q
        rw [hs] at hmap
        have hq : List.find? (compatPred s.heap s.bannedUsers u) q = none := hmap.symm
        dsimp only
        rw [ih]
        simp [hq]
      · have hmap := scanBucket_map_fst s.heap s.bannedUsers u q
        rw [hs] at hmap
        have hq : List.find? (compatPred s.heap s.bannedUsers u) q = some rv.1 := hmap.symm
        dsimp only
        simp [hq]

theorem searchQueues_heap (s : St) (u : User) (names : List String) (mr : Nat) (pm : User)
    (h : searchQueues s u names = some (mr, pm)) : lookupA s.heap mr = some pm := by
  induction names with
  | nil => exact absurd h (by simp [searchQueues])
  | cons qn rest ih =>
    unfold searchQueues at h
    rcases hb : s.bucket? qn with _ | q <;> rw [hb] at h
    · exact ih h
    · dsimp only at h
      rcases hs : scanBucket s.heap s.bannedUsers u q with _ | rv <;> rw [hs] at h
      · exact ih h
      · simp only [Option.some.injEq] at h
        rw [h] at hs
        exact scanBucket_heap s.heap s.bannedUsers u q mr pm hs

theorem searchQueues_compat (s : St) (u : User) (names : List String) (mr : Nat) (pm : User)
    (h : searchQueues s u names = some (mr, pm)) :
    areUsersCompatible s.bannedUsers u pm = true := by
  induction names with
  | nil => exact absurd h (by simp [searchQueues])
  | cons qn rest ih =>
    unfold searchQueues at h
    rcases hb : s.bucket? qn with _ | q <;> rw [hb] at h
    · exact ih h
    · dsimp only at h
      rcases hs : scanBucket s.heap s.bannedUsers u q with _ | rv <;> rw [hs] at h
      · exact ih h
      · simp only [Option.some.injEq] at h
        rw [h] at hs
        exact scanBucket_compat s.heap s.bannedUsers u q mr pm hs

theorem compat_socketId_ne (banned : List String) (u v : User)
    (h : areUsersCompatible banned u v = true) : u.socketId ≠ v.socketId := by
  rw [areUsersCompatible_eq] at h
  intro he
  simp [he] at h

theorem searchOrder_eq_spec (u : User) (hpref : u.preferredGender ∈ validPreferences) :
    searchOrder u = specSearchOrder u := by
  unfold searchOrder specSearchOrder
  have hne : (u.preferredGender != "") = true := by
    simp only [validPreferences, List.mem_cons, List.not_mem_nil, or_false] at hpref
    rcases hpref with h | h | h | h <;> rw [h] <;> rfl
  rw [hne]
  simp

/-- C6: `findMatch` on an unmatched participant returns exactly the first
compatible candidate of the spec's combined search order — entitled
non-`any` preference searches `[preference, any]`, everyone else searches
`[male, female, other, any]`, FIFO within each bucket — and pairs the two
mutually. -/
theorem c6_findMatch_first_compatible (s : St) (r : Nat) (u : User)
    (hu : heapOf s r = some u) (hm : u.isMatched = false)
    (hpref : u.preferredGender ∈ validPreferences) :
    ((findMatch s r).2.map (·.1) = specFirstCompatible s u) ∧
    (∀ mr pm, (findMatch s r).2 = some (mr, pm) →
      ∃ v, heapOf s mr = some v ∧ areUsersCompatible s.bannedUsers u v = true ∧
        pm = { v with isMatched := true, partnerId := some u.socketId } ∧
        heapOf (findMatch s r).1 mr = some pm ∧
        heapOf (findMatch s r).1 r =
          some { u with isMatched := true, partnerId := some v.socketId }) := by
  have hcand : specFirstCompatible s u =
      (searchQueues s u (searchOrder u)).map (·.1) := by
    rw [searchOrder_eq_spec u hpref]
    unfold specFirstCompatible specCandidates
    rw [searchQueues_map_fst]
  unfold findMatch
  rw [hu]
  dsimp only
  rw [if_neg (by simp [hm])]
  rcases hsq : searchQueues s u (searchOrder u) with _ | ⟨mr, pm⟩
  · rw [hcand, hsq]
    exact ⟨rfl, by intro mr pm h; exact absurd h (by simp)⟩
  · rw [hcand, hsq]
    dsimp only
    constructor
    · rfl
    · intro mr2 pm2 heq
      simp only [Option.some.injEq, Prod.mk.injEq] at heq
      obtain ⟨hmr, hpm⟩ := heq
      subst hmr
      refine ⟨pm, searchQueues_heap s u _ mr pm hsq, searchQueues_compat s u _ mr pm hsq,
        ?_, ?_, ?_⟩
      · rw [← hpm]
      · show heapOf _ mr = some pm2
        unfold heapOf
        show lookupA (setA (setA _ r _) mr _) mr = _
        rw [lookupA_setA_self, hpm]
      · have hne : r ≠ mr := by
          intro hre
          have h1 := searchQueues_heap s u _ mr pm hsq
          rw [← hre] at h1
          have h2 : u = pm := by
            have h3 : heapOf s r = some pm := h1
            rw [hu] at h3
            simpa using h3
          have hcc := searchQueues_compat s u _ mr pm hsq
          exact compat_socketId_ne s.bannedUsers u pm hcc (by rw [← h2])
        show heapOf _ r = _
        unfold heapOf
        show lookupA (setA (setA _ r _) mr _) r = _
        rw [lookupA_setA_ne _ _ _ _ hne, lookupA_setA_self]

/-- Witness for C6: in `c6State`, `findMatch` for the caller on `s2`
satisfies the hypotheses and the refinement conclusion. -/
theorem c6_witness :
    heapOf c6State 1 = some exCallerB ∧ exCallerB.isMatched = false ∧
    exCallerB.preferredGender ∈ validPreferences ∧
    (((findMatch c6State 1).2.map (·.1) = specFirstCompatible c6State exCallerB) ∧
     (∀ mr pm, (findMatch c6State 1).2 = some (mr, pm) →
       ∃ v, heapOf c6State mr = some v ∧
         areUsersCompatible c6State.bannedUsers exCallerB v = true ∧
         pm = { v with isMatched := true, partnerId := some exCallerB.socketId } ∧
         heapOf (findMatch c6State 1).1 mr = some pm ∧
         heapOf (findMatch c6State 1).1 1 =
           some { exCallerB with isMatched := true, partnerId := some v.socketId })) :=
  ⟨by decide, by decide, by decide,
    c6_findMatch_first_compatible c6State 1 exCallerB (by decide) (by decide) (by decide)⟩

/-- Witness for C9 at a concrete input. -/
theorem c9_witness :
    exUserA.hasFilterCredit = false ∧
    (areUsersCompatible [] exUserA exUserB = true ↔
      (exUserA.socketId ≠ exUserB.socketId ∧ exUserA.isMatched = false ∧
       exUserB.isMatched = false ∧ exUserA.id ≠ exUserB.id ∧
       List.contains [] exUserA.id = false ∧ List.contains [] exUserB.id = false ∧
       (exUserB.hasFilterCredit = true → exUserB.preferredGender ≠ "" →
        exUserB.preferredGender ≠ "any" → exUserB.preferredGender = exUserA.gender))) :=
  ⟨by decide, c9_no_entitlement_never_blocks [] exUserA exUserB (by decide)⟩

theorem addUser_ok_inv (s : St) (sock : String) (d : UserData) (now : Nat)
    (s1 : St) (r : Nat) (h : addUser s sock d now = .ok (s1, r)) :
    r = s.nextRef ∧
    s1 = { s with
      heap := s.heap ++ [(s.nextRef, freshUser sock d now)]
      nextRef := s.nextRef + 1
      users := setA s.users sock s.nextRef
      sessionStartTimes := setA s.sessionStartTimes sock now
      activeUsers := (setA s.users sock s.nextRef).length
      peakConcurrentUsers := max s.peakConcurrentUsers (setA s.users sock s.nextRef).length } ∧
    (d.userId == "" || d.gender == "") = false ∧
    s.bannedUsers.contains d.userId = false := by
  unfold addUser at h
  by_cases h1 : (d.userId == "" || d.gender == "") = true
  · rw [if_pos h1] at h
    exact absurd h (by simp)
  · rw [if_neg h1] at h
    by_cases h2 : s.bannedUsers.contains d.userId = true
    · rw [if_pos h2] at h
      exact absurd h (by simp)
    · rw [if_neg h2] at h
      dsimp only at h
      simp only [Except.ok.injEq, Prod.mk.injEq] at h
      refine ⟨h.2.symm, h.1.symm, ?_, ?_⟩
      · simpa using h1
      · simpa using h2

theorem findMatch_none_inv (s : St) (r : Nat) (s2 : St)
    (h : findMatch s r = (s2, none)) : s2 = s := by
  unfold findMatch at h
  split at h
  · simp only [Prod.mk.injEq] at h
    exact h.1.symm
  · split at h
    · simp only [Prod.mk.injEq] at h
      exact h.1.symm
    · split at h
      · simp only [Prod.mk.injEq] at h
        exact h.1.symm
      · simp only [Prod.mk.injEq] at h
        exact absurd h.2 (by simp)

theorem findMatch_some_inv (s : St) (r : Nat) (s2 : St) (mr : Nat) (pm : User)
    (h : findMatch s r = (s2, some (mr, pm))) :
    ∃ u v, heapOf s r = some u ∧ u.isMatched = false ∧
      searchQueues s u (searchOrder u) = some (mr, v) ∧
      heapOf s mr = some v ∧ areUsersCompatible s.bannedUsers u v = true ∧
      pm = { v with isMatched := true, partnerId := some u.socketId } ∧
      s2 = { s with
        qMale := (s.qMale.filter (· != r)).filter (· != mr)
        qFemale := (s.qFemale.filter (· != r)).filter (· != mr)
        qOther := (s.qOther.filter (· != r)).filter (· != mr)
        qAny := (s.qAny.filter (· != r)).filter (· != mr)
        heap := setA (setA s.heap r { u with isMatched := true, partnerId := some v.socketId })
          mr { v with isMatched := true, partnerId := some u.socketId }
        totalMatches := s.totalMatches + 1 } := by
  unfold findMatch at h
  split at h
  · exact absurd (congrArg Prod.snd h) (by simp)
  · next u hu =>
    split at h
    · exact absurd (congrArg Prod.snd h) (by simp)
    · next hm =>
      split at h
      · exact absurd (congrArg Prod.snd h) (by simp)
      · next mr0 v hsq =>
        simp only [Prod.mk.injEq, Option.some.injEq] at h
        obtain ⟨hs2, hmr, hpm⟩ := h
        subst hmr
        refine ⟨u, v, hu, by simpa using hm, hsq,
          searchQueues_heap s u _ mr0 v hsq,
          searchQueues_compat s u _ mr0 v hsq, hpm.symm, ?_⟩
        rw [← hs2]
        rfl

/-- C3 amended: a renewed announce-intent replaces the registry entry with
fresh unpaired state, but removes no prior queue membership and no stale
pairing — every bucket and every other heap object is unchanged. -/
theorem c3_amended_upsert_no_cleanup (s : St) (sock : String) (d : UserData) (now : Nat)
    (s1 : St) (r : Nat)
    (hfresh : heapOf s s.nextRef = none)
    (h : addUser s sock d now = .ok (s1, r)) :
    regOf s1 sock = some r ∧
    heapOf s1 r = some (freshUser sock d now) ∧
    (freshUser sock d now).isMatched = false ∧ (freshUser sock d now).partnerId = none ∧
    s1.qMale = s.qMale ∧ s1.qFemale = s.qFemale ∧ s1.qOther = s.qOther ∧ s1.qAny = s.qAny ∧
    (∀ x, x ≠ r → heapOf s1 x = heapOf s x) ∧
    (∀ c, c ≠ sock → regOf s1 c = regOf s c) := by
  obtain ⟨hr, hs1, hv1, hv2⟩ := addUser_ok_inv s sock d now s1 r h
  subst hr
  subst hs1
  refine ⟨?_, ?_, rfl, rfl, rfl, rfl, rfl, rfl, ?_, ?_⟩
  · show lookupA (setA s.users sock s.nextRef) sock = _
    exact lookupA_setA_self _ _ _
  · show lookupA (s.heap ++ [(s.nextRef, freshUser sock d now)]) s.nextRef = _
    rw [lookupA_append]
    rw [show lookupA s.heap s.nextRef = none from hfresh]
    rw [lookupA_cons]
    simp
  · intro x hx
    show lookupA (s.heap ++ [(s.nextRef, freshUser sock d now)]) x = lookupA s.heap x
    rw [lookupA_append]
    rcases hax : lookupA s.heap x with _ | w
    · rw [lookupA_cons, if_neg (fun hh => hx hh.symm), lookupA_nil]
    · rfl
  · intro c hc
    show lookupA (setA s.users sock s.nextRef) c = lookupA s.users c
    exact lookupA_setA_ne _ _ _ _ hc
/-- C2 counterexample: after `ceTrace2` (socket `s1` announces twice, first
unfiltered, then entitled with preference `female`), the connection id `s1`
occupies both the `any` bucket (stale object) and the `female` bucket
(fresh object). -/
theorem c2_counterexample : ¬ ClaimC2 (run initState ceTrace2) := fun h =>
  absurd (h.1 "s1") (by decide)
theorem firstUserWithId_heap (heap : List (Nat × User)) (uid : String)
    (users : List (String × Nat)) (r : Nat) (u : User)
    (h : firstUserWithId heap uid users = some (r, u)) : lookupA heap r = some u := by
  induction users with
  | nil => exact absurd h (by simp [firstUserWithId])
  | cons p rest ih =>
    unfold firstUserWithId at h
    rcases hl : lookupA heap p.2 with _ | v <;> rw [hl] at h
    · exact ih h
    · dsimp only at h
      by_cases hv : (v.id == uid) = true
      · rw [if_pos hv] at h
        simp only [Option.some.injEq, Prod.mk.injEq] at h
        rw [← h.1, hl, h.2]
      · rw [if_neg hv] at h
        exact ih h

/-- Witness for C3 at a concrete input: the renewed announce-intent of `s2`
in the paired state. -/
theorem c3_witness :
    heapOf (run initState pairedTrace) (run initState pairedTrace).nextRef = none ∧
    addUser (run initState pairedTrace) "s2" exDataB 12 = .ok (c3wS1, 2) ∧
    (regOf c3wS1 "s2" = some 2 ∧
     heapOf c3wS1 2 = some (freshUser "s2" exDataB 12) ∧
     (freshUser "s2" exDataB 12).isMatched = false ∧
     (freshUser "s2" exDataB 12).partnerId = none ∧
     c3wS1.qMale = (run initState pairedTrace).qMale ∧
     c3wS1.qFemale = (run initState pairedTrace).qFemale ∧
     c3wS1.qOther = (run initState pairedTrace).qOther ∧
     c3wS1.qAny = (run initState pairedTrace).qAny ∧
     (∀ x, x ≠ 2 → heapOf c3wS1 x = heapOf (run initState pairedTrace) x) ∧
     (∀ c, c ≠ "s2" → regOf c3wS1 c = regOf (run initState pairedTrace) c)) :=
  ⟨by decide, by rfl,
    c3_amended_upsert_no_cleanup (run initState pairedTrace) "s2" exDataB 12 c3wS1 2
      (by decide) (by rfl)⟩

theorem addToQueue_frame (s : St) (r : Nat) :
    (addToQueue s r).users = s.users ∧ (addToQueue s r).heap = s.heap ∧
    (addToQueue s r).emits = s.emits ∧ (addToQueue s r).totalMatches = s.totalMatches ∧
    (addToQueue s r).live = s.live := by
  unfold addToQueue removeFromQueue St.setBucket St.bucket?
  repeat' split
  all_goals exact ⟨rfl, rfl, rfl, rfl, rfl⟩

theorem mem_sAdd_self (q : List Nat) (r : Nat) : r ∈ sAdd q r := by
  unfold sAdd
  by_cases h : q.contains r = true
  · rw [if_pos h]
    simpa using h
  · rw [if_neg h]
    simp

theorem mem_sAdd_iff (q : List Nat) (r x : Nat) : x ∈ sAdd q r ↔ x ∈ q ∨ x = r := by
  unfold sAdd
  by_cases h : q.contains r = true
  · rw [if_pos h]
    constructor
    · exact Or.inl
    · rintro (hx | hx)
      · exact hx
      · rw [hx]
        simpa using h
  · rw [if_neg h]
    simp

theorem targetQueueName_valid (u : User) (h : u.preferredGender ∈ validPreferences) :
    targetQueueName u ∈ validPreferences := by
  unfold targetQueueName
  split
  · exact h
  · simp [validPreferences]

theorem addToQueue_mem_self (s : St) (r : Nat) (u : User)
    (hu : heapOf s r = some u) (hm : u.isMatched = false)
    (hv : targetQueueName u ∈ validPreferences) :
    r ∈ queueRefs (addToQueue s r) := by
  unfold addToQueue
  rw [hu]
  dsimp only
  rw [if_neg (by simp [hm])]
  simp only [validPreferences, List.mem_cons, List.not_mem_nil, or_false] at hv
  rcases hv with h | h | h | h <;>
    rw [h] <;>
    · unfold St.setBucket St.bucket? queueRefs
      simp [mem_sAdd_self]

theorem addToQueue_subset (s : St) (r x : Nat) (hx : x ∈ queueRefs (addToQueue s r)) :
    x = r ∨ x ∈ queueRefs s := by
  unfold addToQueue removeFromQueue St.setBucket St.bucket? at hx
  repeat' split at hx
  all_goals unfold queueRefs at hx ⊢
  all_goals simp only [List.mem_append, mem_sAdd_iff, List.mem_filter] at hx ⊢
  all_goals tauto

theorem addToQueue_mem_other (s : St) (x r : Nat) (hne : x ≠ r)
    (hx : x ∉ queueRefs s) : x ∉ queueRefs (addToQueue s r) := by
  intro hmem
  rcases addToQueue_subset s r x hmem with h | h
  · exact hne h
  · exact hx h


theorem normPref_coercePref (d : UserData) :
    normPref ((coercePref d).preferredGender) ∈ validPreferences := by
  unfold coercePref
  split
  · next p heq =>
    split
    · show normPref (some "any") ∈ validPreferences
      decide
    · next hp =>
      rw [heq]
      show (if (p == "") = true then "any" else toLowerStr p) ∈ validPreferences
      by_cases he : (p == "") = true
      · rw [if_pos he]
        simp [validPreferences]
      · rw [if_neg he]
        simp only [Bool.and_eq_true, Bool.not_eq_true'] at hp
        have hc : validPreferences.contains (toLowerStr p) = true := by
          by_cases hcc : validPreferences.contains (toLowerStr p) = true
          · exact hcc
          · exfalso
            apply hp
            constructor
            · simpa using he
            · simpa using hcc
        simpa using hc
  · next heq =>
    rw [heq]
    decide


theorem notin_filter_bne_self (l : List Nat) (x : Nat) : x ∉ l.filter (· != x) := by
  intro h
  have := List.of_mem_filter h
  simp at this

/-- C10: when `findPartner` pairs the caller with a candidate whose socket
is no longer live, the handler rolls the pairing back before returning:
both objects are reset to unmatched with no partner, the caller is
re-enqueued and notified `waiting` (after the already-sent `matched`), the
total-match counter stays incremented, and the unreachable candidate is
neither re-enqueued nor removed from the registry. -/
theorem c10_unreachable_partner_rollback (s : St) (sock : String) (d : UserData) (now : Nat)
    (s1 s2 : St) (r mr : Nat) (pm : User)
    (h1 : (d.userId == "" || d.gender == "") = false)
    (h2 : validGenders.contains (toLowerStr d.gender) = true)
    (h3 : addUser (updateUserActivity s sock now) sock (coercePref d) now = .ok (s1, r))
    (h4 : findMatch s1 r = (s2, some (mr, pm)))
    (h5 : s2.live.contains pm.socketId = false)
    (h6 : mr ≠ r)
    (h7 : heapOf (updateUserActivity s sock now) (updateUserActivity s sock now).nextRef = none) :
    heapOf (hFindPartner s sock d now) mr = some { pm with isMatched := false, partnerId := none } ∧
    heapOf (hFindPartner s sock d now) r = some (freshUser sock (coercePref d) now) ∧
    r ∈ queueRefs (hFindPartner s sock d now) ∧
    mr ∉ queueRefs (hFindPartner s sock d now) ∧
    (hFindPartner s sock d now).users = s1.users ∧
    (hFindPartner s sock d now).totalMatches = s1.totalMatches + 1 ∧
    (hFindPartner s sock d now).emits =
      s2.emits ++ [Emit.matched sock pm.socketId, Emit.waiting sock] := by
  obtain ⟨hr, hs1, _, _⟩ := addUser_ok_inv _ sock (coercePref d) now s1 r h3
  obtain ⟨u0, v, hu0, hu0m, hsq, hv, hcompat, hpm, hs2⟩ := findMatch_some_inv s1 r s2 mr pm h4
  have hu0fresh : u0 = freshUser sock (coercePref d) now := by
    rw [hs1] at hu0
    have : lookupA ((updateUserActivity s sock now).heap ++
        [((updateUserActivity s sock now).nextRef, freshUser sock (coercePref d) now)]) r
        = some u0 := hu0
    rw [hr] at this
    rw [lookupA_append] at this
    rw [show lookupA (updateUserActivity s sock now).heap
        (updateUserActivity s sock now).nextRef = none from h7] at this
    rw [lookupA_cons] at this
    simp at this
    exact this.symm
  -- the handler reduces to the rollback branch
  have hred : hFindPartner s sock d now =
      emit (addToQueue { emit s2 (.matched sock pm.socketId) with
        heap := clearPairFields (clearPairFields (emit s2 (.matched sock pm.socketId)).heap r) mr } r)
        (.waiting sock) := by
    unfold hFindPartner
    rw [if_neg (by rw [h1]; simp), if_neg (by rw [h2]; simp)]
    dsimp only
    rw [h3]
    dsimp only
    rw [h4]
    dsimp only
    rw [if_neg (by intro hmem; rw [show s2.live.contains pm.socketId = true by simpa using hmem] at h5; simp at h5)]
  subst hu0fresh
  have hrm : r ≠ mr := fun h => h6 h.symm
  set fresh := freshUser sock (coercePref d) now with hfresh
  have hs2heap := congrArg St.heap hs2
  dsimp only at hs2heap
  rw [← hpm] at hs2heap
  have hclean : ({ { fresh with isMatched := true, partnerId := some v.socketId } with
      isMatched := false, partnerId := none } : User) = fresh := by
    rw [hfresh]
    unfold freshUser
    rfl
  have hlook_r : lookupA s2.heap r =
      some { fresh with isMatched := true, partnerId := some v.socketId } := by
    rw [hs2heap, lookupA_setA_ne _ _ _ _ hrm, lookupA_setA_self]
  have hlook_mr : lookupA s2.heap mr = some pm := by
    rw [hs2heap, lookupA_setA_self]
  have hclear1 : clearPairFields s2.heap r = setA s2.heap r fresh := by
    unfold clearPairFields
    rw [hlook_r]
    dsimp only
    rw [hclean]
  have hclear2 : clearPairFields (clearPairFields s2.heap r) mr =
      setA (setA s2.heap r fresh) mr { pm with isMatched := false, partnerId := none } := by
    rw [hclear1]
    unfold clearPairFields
    rw [lookupA_setA_ne _ _ _ _ h6, hlook_mr]
  rw [hred]
  have hheapR : (emit (addToQueue { emit s2 (.matched sock pm.socketId) with
      heap := clearPairFields (clearPairFields (emit s2 (.matched sock pm.socketId)).heap r) mr } r)
      (.waiting sock)).heap =
      setA (setA s2.heap r fresh) mr { pm with isMatched := false, partnerId := none } := by
    show (addToQueue { emit s2 (.matched sock pm.socketId) with
      heap := clearPairFields (clearPairFields s2.heap r) mr } r).heap = _
    rw [(addToQueue_frame _ _).2.1]
    exact hclear2
  refine ⟨?_, ?_, ?_, ?_, ?_, ?_, ?_⟩
  · show lookupA _ mr = _
    rw [hheapR, lookupA_setA_self]
  · show lookupA _ r = _
    rw [hheapR, lookupA_setA_ne _ _ _ _ hrm, lookupA_setA_self]
  · show r ∈ queueRefs (addToQueue { emit s2 (.matched sock pm.socketId) with
      heap := clearPairFields (clearPairFields s2.heap r) mr } r)
    apply addToQueue_mem_self _ _ fresh
    · show lookupA (clearPairFields (clearPairFields s2.heap r) mr) r = some fresh
      rw [hclear2, lookupA_setA_ne _ _ _ _ hrm, lookupA_setA_self]
    · rw [hfresh]
      unfold freshUser
      rfl
    · apply targetQueueName_valid
      rw [hfresh]
      show normPref ((coercePref d).preferredGender) ∈ validPreferences
      exact normPref_coercePref d
  · show mr ∉ queueRefs (addToQueue { emit s2 (.matched sock pm.socketId) with
      heap := clearPairFields (clearPairFields s2.heap r) mr } r)
    apply addToQueue_mem_other _ _ _ h6
    show mr ∉ queueRefs { emit s2 (.matched sock pm.socketId) with
      heap := clearPairFields (clearPairFields s2.heap r) mr }
    have hq : queueRefs { emit s2 (.matched sock pm.socketId) with
        heap := clearPairFields (clearPairFields s2.heap r) mr } = queueRefs s2 := rfl
    rw [hq, hs2]
    show mr ∉ ((s1.qMale.filter (· != r)).filter (· != mr)) ++
      ((s1.qFemale.filter (· != r)).filter (· != mr)) ++
      ((s1.qOther.filter (· != r)).filter (· != mr)) ++
      ((s1.qAny.filter (· != r)).filter (· != mr))
    simp only [List.mem_append, not_or]
    exact ⟨⟨⟨notin_filter_bne_self _ _, notin_filter_bne_self _ _⟩,
      notin_filter_bne_self _ _⟩, notin_filter_bne_self _ _⟩
  · show (addToQueue { emit s2 (.matched sock pm.socketId) with
      heap := clearPairFields (clearPairFields s2.heap r) mr } r).users = s1.users
    rw [(addToQueue_frame _ _).1]
    show s2.users = s1.users
    rw [hs2]
  · show (addToQueue { emit s2 (.matched sock pm.socketId) with
      heap := clearPairFields (clearPairFields s2.heap r) mr } r).totalMatches = s1.totalMatches + 1
    rw [(addToQueue_frame _ _).2.2.2.1]
    show s2.totalMatches = s1.totalMatches + 1
    rw [hs2]
  · show (addToQueue { emit s2 (.matched sock pm.socketId) with
      heap := clearPairFields (clearPairFields s2.heap r) mr } r).emits ++ [Emit.waiting sock] =
      s2.emits ++ [Emit.matched sock pm.socketId, Emit.waiting sock]
    rw [(addToQueue_frame _ _).2.2.1]
    show (s2.emits ++ [Emit.matched sock pm.socketId]) ++ [Emit.waiting sock] = _
    rw [List.append_assoc]
    rfl

/-- Witness for C10 at a concrete input: caller `s2` matches the queued but
dead-socketed `s1` and the pairing is rolled back. -/
theorem c10_witness :
    (exDataB.userId == "" || exDataB.gender == "") = false ∧
    validGenders.contains (toLowerStr exDataB.gender) = true ∧
    addUser (updateUserActivity c10State "s2" 5) "s2" (coercePref exDataB) 5 = .ok (c10S1, 2) ∧
    findMatch c10S1 2 = (c10S2, some (0, c10PM)) ∧
    c10S2.live.contains c10PM.socketId = false ∧
    (0 : Nat) ≠ 2 ∧
    heapOf (updateUserActivity c10State "s2" 5) (updateUserActivity c10State "s2" 5).nextRef
      = none ∧
    (heapOf (hFindPartner c10State "s2" exDataB 5) 0 =
       some { c10PM with isMatched := false, partnerId := none } ∧
     heapOf (hFindPartner c10State "s2" exDataB 5) 2 =
       some (freshUser "s2" (coercePref exDataB) 5) ∧
     2 ∈ queueRefs (hFindPartner c10State "s2" exDataB 5) ∧
     0 ∉ queueRefs (hFindPartner c10State "s2" exDataB 5) ∧
     (hFindPartner c10State "s2" exDataB 5).users = c10S1.users ∧
     (hFindPartner c10State "s2" exDataB 5).totalMatches = c10S1.totalMatches + 1 ∧
     (hFindPartner c10State "s2" exDataB 5).emits =
       c10S2.emits ++ [Emit.matched "s2" c10PM.socketId, Emit.waiting "s2"]) :=
  ⟨by decide, by decide, by rfl, by rfl, by decide, by decide, by decide,
    c10_unreachable_partner_rollback c10State "s2" exDataB 5 c10S1 c10S2 2 0 c10PM
      (by decide) (by decide) (by rfl) (by rfl) (by decide) (by decide) (by decide)⟩



theorem lookupA_setA {α β : Type} [BEq α] [LawfulBEq α] [DecidableEq α]
    (m : List (α × β)) (k x : α) (v : β) :
    lookupA (setA m k v) x = if x = k then some v else lookupA m x := by
  by_cases h : x = k
  · rw [if_pos h, h]
    exact lookupA_setA_self m k v
  · rw [if_neg h]
    exact lookupA_setA_ne m k x v h

theorem lookupA_eraseA {α β : Type} [BEq α] [LawfulBEq α] [DecidableEq α]
    (m : List (α × β)) (k x : α) :
    lookupA (eraseA m k) x = if x = k then none else lookupA m x := by
  by_cases h : x = k
  · rw [if_pos h, h]
    exact lookupA_eraseA_self m k
  · rw [if_neg h]
    exact lookupA_eraseA_ne m k x h

theorem lookupA_snoc {α β : Type} [BEq α] [LawfulBEq α] [DecidableEq α]
    (m : List (α × β)) (k x : α) (v : β) (hnone : lookupA m k = none) :
    lookupA (m ++ [(k, v)]) x = if x = k then some v else lookupA m x := by
  rw [lookupA_append]
  by_cases h : x = k
  · rw [if_pos h, h, hnone]
    simp [lookupA_cons]
  · rw [if_neg h]
    rcases hx : lookupA m x with _ | w
    · rw [lookupA_cons, if_neg (fun hh => h hh.symm), lookupA_nil]
    · rfl

theorem lookupA_isSome_congr {α β γ : Type} [BEq α] [LawfulBEq α] [DecidableEq α]
    (m : List (α × β)) (m' : List (α × γ)) (k : α)
    (h : m.map (·.1) = m'.map (·.1)) :
    (lookupA m k).isSome = (lookupA m' k).isSome := by
  induction m generalizing m' with
  | nil =>
    cases m' with
    | nil => rfl
    | cons q t => simp at h
  | cons p t ih =>
    cases m' with
    | nil => simp at h
    | cons q t' =>
      simp only [List.map_cons, List.cons.injEq] at h
      rw [lookupA_cons, lookupA_cons, ← h.1]
      by_cases hk : p.1 = k
      · rw [if_pos hk, if_pos hk]
        rfl
      · rw [if_neg hk, if_neg hk]
        exact ih t' h.2

theorem keys_eraseA_sublist {α β : Type} [BEq α] (m : List (α × β)) (k : α) :
    ((eraseA m k).map (·.1)).Sublist (m.map (·.1)) :=
  (List.filter_sublist m).map (·.1)

theorem contains_filter_ne (l : List String) (x y : String) (hx : l.contains x = true)
    (hne : x ≠ y) : (l.filter (· != y)).contains x = true := by
  have hmem : x ∈ l := by simpa using hx
  have hf : x ∈ l.filter (· != y) := List.mem_filter.mpr ⟨hmem, by simpa using hne⟩
  simpa using hf


theorem inv_init : Inv initState := by
  constructor <;> intros <;> simp_all [initState, regOf, heapOf, queueRefs, lookupA]

theorem Inv.regInj {s : St} (hInv : Inv s) {c c' : String} {r : Nat}
    (h1 : regOf s c = some r) (h2 : regOf s c' = some r) : c = c' := by
  obtain ⟨u, hu, hc⟩ := hInv.regSock c r h1
  obtain ⟨u', hu', hc'⟩ := hInv.regSock c' r h2
  rw [hu] at hu'
  rw [← hc, ← hc']
  rw [Option.some.injEq] at hu'
  rw [hu']

/-- Transport of the invariant across a state change that keeps the
registry, live set, buckets, allocation counter and heap key set, and
changes no object's identity-relevant fields. -/
theorem Inv.ofCore {s s' : St} (hInv : Inv s)
    (husers : s'.users = s.users) (hlive : s'.live = s.live)
    (hqm : s'.qMale = s.qMale) (hqf : s'.qFemale = s.qFemale)
    (hqo : s'.qOther = s.qOther) (hqa : s'.qAny = s.qAny)
    (hn : s'.nextRef = s.nextRef)
    (hkeys : s'.heap.map (·.1) = s.heap.map (·.1))
    (hcore : ∀ x u, heapOf s x = some u → ∃ u', heapOf s' x = some u' ∧
      u'.socketId = u.socketId ∧ u'.isMatched = u.isMatched ∧ u'.partnerId = u.partnerId) :
    Inv s' := by
  have hreg : ∀ c, regOf s' c = regOf s c := by
    intro c
    unfold regOf
    rw [husers]
  have hq : queueRefs s' = queueRefs s := by
    unfold queueRefs
    rw [hqm, hqf, hqo, hqa]
  have hrev : ∀ x u', heapOf s' x = some u' → ∃ u, heapOf s x = some u ∧
      u'.socketId = u.socketId ∧ u'.isMatched = u.isMatched ∧ u'.partnerId = u.partnerId := by
    intro x u' hx
    have hsome : (lookupA s.heap x).isSome := by
      rw [lookupA_isSome_congr s.heap s'.heap x hkeys.symm]
      rw [show lookupA s'.heap x = some u' from hx]
      rfl
    rcases hu : heapOf s x with _ | u
    · rw [show lookupA s.heap x = none from hu] at hsome
      simp at hsome
    · obtain ⟨u'', hx', h1, h2, h3⟩ := hcore x u hu
      rw [hx, Option.some.injEq] at hx'
      refine ⟨u, rfl, ?_, ?_, ?_⟩
      · rw [hx']
        exact h1
      · rw [hx']
        exact h2
      · rw [hx']
        exact h3
  constructor
  · rw [hkeys]
    exact hInv.heapKeys
  · rw [hkeys, hn]
    exact hInv.heapLt
  · rw [husers]
    exact hInv.regKeys
  · intro c r h
    rw [hreg] at h
    obtain ⟨u, hu, hs⟩ := hInv.regSock c r h
    obtain ⟨u', hx', h1, _, _⟩ := hcore r u hu
    exact ⟨u', hx', by rw [h1, hs]⟩
  · intro c r h
    rw [hreg] at h
    rw [hlive]
    exact hInv.regLive c r h
  · intro c r u' h hh
    rw [hreg] at h
    obtain ⟨u, hu, _, h2, h3⟩ := hrev r u' hh
    rw [h2, h3]
    exact hInv.coupled c r u h hu
  · intro c r u' p h hh hp
    rw [hreg] at h
    obtain ⟨u, hu, _, _, h3⟩ := hrev r u' hh
    obtain ⟨pr, pu, hpr, hpu, hback⟩ := hInv.sym c r u p h hu (by rw [← h3]; exact hp)
    obtain ⟨pu', hpu', _, _, g3⟩ := hcore pr pu hpu
    exact ⟨pr, pu', by rw [hreg]; exact hpr, hpu', by rw [g3]; exact hback⟩
  · intro r hr
    rw [hq] at hr
    obtain ⟨u, hu, hm, hp, hr'⟩ := hInv.queued r hr
    obtain ⟨u', hx', g1, g2, g3⟩ := hcore r u hu
    exact ⟨u', hx', by rw [g2]; exact hm, by rw [g3]; exact hp, by rw [hreg, g1]; exact hr'⟩
  · rw [hq]
    exact hInv.queueNodup

theorem inv_emit {s : St} (e : Emit) (hInv : Inv s) : Inv (emit s e) :=
  ⟨hInv.heapKeys, hInv.heapLt, hInv.regKeys, hInv.regSock, hInv.regLive,
    hInv.coupled, hInv.sym, hInv.queued, hInv.queueNodup⟩

theorem inv_touch {s : St} (c : String) (n : Nat) (hInv : Inv s) :
    Inv (updateUserActivity s c n) := by
  unfold updateUserActivity
  rcases hf : findUserBySocketId s c with _ | ⟨r, u⟩
  · exact hInv
  · dsimp only
    have hru : heapOf s r = some u := ((findUserBySocketId_eq_some_iff s c r u).mp hf).2
    refine hInv.ofCore rfl rfl rfl rfl rfl rfl rfl ?_ ?_
    · exact keys_setA_of_some _ (by rw [show lookupA s.heap r = some u from hru]; rfl)
    · intro x u0 hx
      show ∃ u', lookupA (setA s.heap r { u with lastActivity := n }) x = some u' ∧ _
      rw [lookupA_setA]
      by_cases hxr : x = r
      · rw [if_pos hxr]
        rw [hxr, hru, Option.some.injEq] at hx
        subst hx
        exact ⟨_, rfl, rfl, rfl, rfl⟩
      · rw [if_neg hxr]
        exact ⟨u0, hx, rfl, rfl, rfl⟩



/-- Invariant transport between states that agree on every
invariant-relevant field. -/
theorem Inv.sameFields {s s' : St} (hInv : Inv s)
    (hheap : s'.heap = s.heap) (hn : s'.nextRef = s.nextRef) (husers : s'.users = s.users)
    (hqm : s'.qMale = s.qMale) (hqf : s'.qFemale = s.qFemale) (hqo : s'.qOther = s.qOther)
    (hqa : s'.qAny = s.qAny) (hlive : s'.live = s.live) : Inv s' := by
  refine hInv.ofCore husers hlive hqm hqf hqo hqa hn (by rw [hheap]) ?_
  intro x u hx
  refine ⟨u, ?_, rfl, rfl, rfl⟩
  show lookupA s'.heap x = some u
  rw [hheap]
  exact hx

/-- Under the invariant, the partner named by a registered user's
`partnerId` is itself on a live socket. -/
theorem partner_live {s : St} (hInv : Inv s) {c : String} {r : Nat} {u : User} {p : String}
    (hf : findUserBySocketId s c = some (r, u)) (hp : u.partnerId = some p) :
    s.live.contains p = true := by
  obtain ⟨hr, hh⟩ := (findUserBySocketId_eq_some_iff s c r u).mp hf
  obtain ⟨pr, pu, hpr, _, _⟩ := hInv.sym c r u p hr hh hp
  exact hInv.regLive p pr hpr

theorem inv_hConnect {s : St} (sock : String) (hInv : Inv s) : Inv (hConnect s sock) := by
  refine ⟨hInv.heapKeys, hInv.heapLt, hInv.regKeys, hInv.regSock, ?_, hInv.coupled,
    hInv.sym, hInv.queued, hInv.queueNodup⟩
  intro c r h
  show (if s.live.contains sock then s.live else s.live ++ [sock]).contains c = true
  split
  · exact hInv.regLive c r h
  · have hmem : c ∈ s.live := by simpa using hInv.regLive c r h
    have : c ∈ s.live ++ [sock] := List.mem_append_left _ hmem
    simpa using this

theorem inv_hOffer {s : St} (sock : String) (valid : Bool) (now : Nat) (hInv : Inv s) :
    Inv (hOffer s sock valid now) := by
  unfold hOffer
  have hT := inv_touch sock now hInv
  dsimp only
  split
  · exact inv_emit _ hT
  · split
    · exact inv_emit _ hT
    · next r user hf =>
      split
      · exact inv_emit _ hT
      · next p hp =>
        split
        · next hdead =>
          exfalso
          have hlive := partner_live hT hf hp
          rw [hlive] at hdead
          simp at hdead
        · exact inv_emit _ hT

theorem inv_hAnswer {s : St} (sock : String) (valid : Bool) (now : Nat) (hInv : Inv s) :
    Inv (hAnswer s sock valid now) := by
  unfold hAnswer
  have hT := inv_touch sock now hInv
  dsimp only
  split
  · exact inv_emit _ hT
  · split
    · exact inv_emit _ hT
    · next r user hf =>
      split
      · exact inv_emit _ hT
      · next p hp =>
        split
        · next hdead =>
          exfalso
          have hlive := partner_live hT hf hp
          rw [hlive] at hdead
          simp at hdead
        · exact (inv_emit (Emit.answerMsg p) hT).sameFields rfl rfl rfl rfl rfl rfl rfl rfl

theorem inv_hIce {s : St} (sock : String) (valid : Bool) (now : Nat) (hInv : Inv s) :
    Inv (hIce s sock valid now) := by
  unfold hIce
  have hT := inv_touch sock now hInv
  dsimp only
  split
  · exact hT
  · split
    · exact hT
    · next r user hf =>
      split
      · exact hT
      · next p hp =>
        split
        · next hdead =>
          exfalso
          have hlive := partner_live hT hf hp
          rw [hlive] at hdead
          simp at hdead
        · exact inv_emit _ hT



/-- Clearing the pairing fields of both members of a mutual pair preserves
the invariant; the heap change is given pointwise so the statement covers
the degenerate self-pair case as well. -/
theorem inv_clearTwo {s s' : St} (hInv : Inv s) {c p : String} {r pr : Nat} {u pu : User}
    (hrc : regOf s c = some r) (hhc : heapOf s r = some u) (hup : u.partnerId = some p)
    (hrp : regOf s p = some pr) (hhp : heapOf s pr = some pu) (hback : pu.partnerId = some c)
    (hheap : ∀ x, heapOf s' x =
        if x = r then (heapOf s x).map (fun w => { w with partnerId := none, isMatched := false })
        else if x = pr then
          (heapOf s x).map (fun w => { w with partnerId := none, isMatched := false })
        else heapOf s x)
    (hkeys : s'.heap.map (·.1) = s.heap.map (·.1))
    (husers : s'.users = s.users) (hlive : s'.live = s.live) (hn : s'.nextRef = s.nextRef)
    (hqm : s'.qMale = s.qMale) (hqf : s'.qFemale = s.qFemale) (hqo : s'.qOther = s.qOther)
    (hqa : s'.qAny = s.qAny) : Inv s' := by
  have hregOf : ∀ c', regOf s' c' = regOf s c' := by
    intro c'
    unfold regOf
    rw [husers]
  have hq : queueRefs s' = queueRefs s := by
    unfold queueRefs
    rw [hqm, hqf, hqo, hqa]
  have humatch : u.isMatched = true := by
    rw [hInv.coupled c r u hrc hhc, hup]
    rfl
  have hpumatch : pu.isMatched = true := by
    rw [hInv.coupled p pr pu hrp hhp, hback]
    rfl
  constructor
  · rw [hkeys]
    exact hInv.heapKeys
  · rw [hkeys, hn]
    exact hInv.heapLt
  · rw [husers]
    exact hInv.regKeys
  · intro c' x h
    rw [hregOf] at h
    obtain ⟨wu, hwu, hws⟩ := hInv.regSock c' x h
    rw [hheap x]
    split
    · rw [hwu]
      exact ⟨_, rfl, hws⟩
    · split
      · rw [hwu]
        exact ⟨_, rfl, hws⟩
      · exact ⟨wu, hwu, hws⟩
  · intro c' x h
    rw [hregOf] at h
    rw [hlive]
    exact hInv.regLive c' x h
  · intro c' x w h hw
    rw [hregOf] at h
    rw [hheap x] at hw
    split at hw
    · rcases hold : heapOf s x with _ | w0
      · rw [hold] at hw
        exact absurd hw (by simp)
      · rw [hold] at hw
        simp only [Option.map, Option.some.injEq] at hw
        rw [← hw]
        rfl
    · split at hw
      · rcases hold : heapOf s x with _ | w0
        · rw [hold] at hw
          exact absurd hw (by simp)
        · rw [hold] at hw
          simp only [Option.map, Option.some.injEq] at hw
          rw [← hw]
          rfl
      · exact hInv.coupled c' x w h hw
  · intro c' rc' uc' p' hregc' hheapc' hpc'
    rw [hregOf] at hregc'
    rw [hheap rc'] at hheapc'
    split at hheapc'
    · rcases hold : heapOf s rc' with _ | w0
      · rw [hold] at hheapc'
        exact absurd hheapc' (by simp)
      · rw [hold] at hheapc'
        simp only [Option.map, Option.some.injEq] at hheapc'
        rw [← hheapc'] at hpc'
        exact absurd hpc' (by simp)
    · next hne1 =>
      split at hheapc'
      · rcases hold : heapOf s rc' with _ | w0
        · rw [hold] at hheapc'
          exact absurd hheapc' (by simp)
        · rw [hold] at hheapc'
          simp only [Option.map, Option.some.injEq] at hheapc'
          rw [← hheapc'] at hpc'
          exact absurd hpc' (by simp)
      · next hne2 =>
        obtain ⟨ry, uy, hry, huy, hbacky⟩ := hInv.sym c' rc' uc' p' hregc' hheapc' hpc'
        have hyne1 : ry ≠ r := by
          intro heq
          rw [heq, hhc, Option.some.injEq] at huy
          rw [← huy] at hbacky
          rw [hup, Option.some.injEq] at hbacky
          rw [← hbacky] at hregc'
          rw [hrp, Option.some.injEq] at hregc'
          exact hne2 hregc'.symm
        have hyne2 : ry ≠ pr := by
          intro heq
          rw [heq, hhp, Option.some.injEq] at huy
          rw [← huy] at hbacky
          rw [hback, Option.some.injEq] at hbacky
          rw [← hbacky] at hregc'
          rw [hrc, Option.some.injEq] at hregc'
          exact hne1 hregc'.symm
        refine ⟨ry, uy, ?_, ?_, hbacky⟩
        · rw [hregOf]
          exact hry
        · rw [hheap ry, if_neg hyne1, if_neg hyne2]
          exact huy
  · intro x hx
    rw [hq] at hx
    obtain ⟨wu, hwu, hwm, hwp, hwr⟩ := hInv.queued x hx
    have hxr : x ≠ r := by
      intro heq
      rw [heq, hhc, Option.some.injEq] at hwu
      rw [← hwu] at hwm
      rw [humatch] at hwm
      exact absurd hwm (by simp)
    have hxpr : x ≠ pr := by
      intro heq
      rw [heq, hhp, Option.some.injEq] at hwu
      rw [← hwu] at hwm
      rw [hpumatch] at hwm
      exact absurd hwm (by simp)
    refine ⟨wu, ?_, hwm, hwp, ?_⟩
    · rw [hheap x, if_neg hxr, if_neg hxpr]
      exact hwu
    · rw [hregOf]
      exact hwr
  · rw [hq]
    exact hInv.queueNodup



theorem inv_hEndCall {s : St} (sock : String) (now : Nat) (hInv : Inv s) :
    Inv (hEndCall s sock now) := by
  unfold hEndCall
  have hT := inv_touch sock now hInv
  dsimp only
  split
  · exact hT
  · next r user hf =>
    split
    · exact hT
    · next p hp =>
      obtain ⟨hr, hh⟩ := (findUserBySocketId_eq_some_iff _ sock r user).mp hf
      obtain ⟨pr, pu, hrp, hhp, hback⟩ := hT.sym sock r user p hr hh hp
      set sT := updateUserActivity s sock now with hsT
      set s1 := if sT.live.contains p then emit sT (Emit.partnerDisconnected p) else sT
        with hs1
      have hH : s1.heap = sT.heap := by
        rw [hs1]
        split <;> rfl
      have hU : s1.users = sT.users := by
        rw [hs1]
        split <;> rfl
      have hL : s1.live = sT.live := by
        rw [hs1]
        split <;> rfl
      have hN : s1.nextRef = sT.nextRef := by
        rw [hs1]
        split <;> rfl
      have hQM : s1.qMale = sT.qMale := by
        rw [hs1]
        split <;> rfl
      have hQF : s1.qFemale = sT.qFemale := by
        rw [hs1]
        split <;> rfl
      have hQO : s1.qOther = sT.qOther := by
        rw [hs1]
        split <;> rfl
      have hQA : s1.qAny = sT.qAny := by
        rw [hs1]
        split <;> rfl
      have hfp1 : findUserBySocketId s1 p = some (pr, pu) := by
        apply (findUserBySocketId_eq_some_iff s1 p pr pu).mpr
        constructor
        · show lookupA s1.users p = some pr
          rw [hU]
          exact hrp
        · show lookupA s1.heap pr = some pu
          rw [hH]
          exact hhp
      rw [hfp1]
      dsimp only
      by_cases hrpr : r = pr
      · subst hrpr
        have hupu : user = pu := by
          rw [hh] at hhp
          rw [Option.some.injEq] at hhp
          exact hhp
        subst hupu
        have h2r : heapOf { s1 with
              heap := setA s1.heap r { user with partnerId := none, isMatched := false } } r =
            some { user with partnerId := none, isMatched := false } := by
          show lookupA (setA s1.heap r _) r = _
          rw [lookupA_setA, if_pos rfl]
        rw [h2r]
        dsimp only
        refine inv_clearTwo hT hr hh hp hrp hhp hback ?_ ?_ hU hL hN hQM hQF hQO hQA
        · intro x
          show lookupA (setA (setA s1.heap r _) r _) x = _
          rw [lookupA_setA, lookupA_setA, hH]
          by_cases h1 : x = r
          · rw [if_pos h1, if_pos h1, h1, hh]
            rfl
          · rw [if_neg h1, if_neg h1, if_neg h1, if_neg h1]
            rfl
        · show (setA (setA s1.heap r _) r _).map (·.1) = sT.heap.map (·.1)
          have k1 : (setA s1.heap r
                { user with partnerId := none, isMatched := false }).map (·.1) =
              s1.heap.map (·.1) :=
            keys_setA_of_some _
              (by rw [hH, show lookupA sT.heap r = some user from hh]; rfl)
          have k2 : (setA (setA s1.heap r { user with partnerId := none, isMatched := false }) r
                { { user with partnerId := none, isMatched := false } with
                    partnerId := none, isMatched := false }).map (·.1) =
              (setA s1.heap r { user with partnerId := none, isMatched := false }).map (·.1) :=
            keys_setA_of_some _ (by rw [lookupA_setA, if_pos rfl]; rfl)
          rw [k2, k1, hH]
      · have h2r : heapOf { s1 with
              heap := setA s1.heap pr { pu with partnerId := none, isMatched := false } } r =
            some user := by
          show lookupA (setA s1.heap pr _) r = _
          rw [lookupA_setA, if_neg hrpr, hH]
          exact hh
        rw [h2r]
        dsimp only
        refine inv_clearTwo hT hr hh hp hrp hhp hback ?_ ?_ hU hL hN hQM hQF hQO hQA
        · intro x
          show lookupA (setA (setA s1.heap pr _) r _) x = _
          rw [lookupA_setA, lookupA_setA, hH]
          by_cases h1 : x = r
          · rw [if_pos h1, if_pos h1, h1, hh]
            rfl
          · rw [if_neg h1, if_neg h1]
            by_cases h2 : x = pr
            · rw [if_pos h2, if_pos h2, h2, hhp]
              rfl
            · rw [if_neg h2, if_neg h2]
              rfl
        · show (setA (setA s1.heap pr _) r _).map (·.1) = sT.heap.map (·.1)
          have k1 : (setA s1.heap pr
                { pu with partnerId := none, isMatched := false }).map (·.1) =
              s1.heap.map (·.1) :=
            keys_setA_of_some _
              (by rw [hH, show lookupA sT.heap pr = some pu from hhp]; rfl)
          have k2 : (setA (setA s1.heap pr { pu with partnerId := none, isMatched := false }) r
                { user with partnerId := none, isMatched := false }).map (·.1) =
              (setA s1.heap pr { pu with partnerId := none, isMatched := false }).map (·.1) :=
            keys_setA_of_some _
              (by rw [lookupA_setA, if_neg hrpr, hH,
                    show lookupA sT.heap r = some user from hh]; rfl)
          rw [k2, k1, hH]



theorem removeUser_of_none (s : St) (c : String) (t : Nat)
    (h : findUserBySocketId s c = none) : removeUser s c t = s := by
  unfold removeUser
  rw [h]

theorem findUser_none_regOf {s : St} (hInv : Inv s) {c : String}
    (h : findUserBySocketId s c = none) : regOf s c = none := by
  rcases hr : regOf s c with _ | r
  · rfl
  · obtain ⟨u, hu, _⟩ := hInv.regSock c r hr
    rw [(findUserBySocketId_eq_some_iff s c r u).mpr ⟨hr, hu⟩] at h
    exact absurd h (by simp)

theorem inv_live_filter_unreg {s : St} (hInv : Inv s) (c : String)
    (hnone : regOf s c = none) : Inv { s with live := s.live.filter (· != c) } := by
  refine ⟨hInv.heapKeys, hInv.heapLt, hInv.regKeys, hInv.regSock, ?_, hInv.coupled,
    hInv.sym, hInv.queued, hInv.queueNodup⟩
  intro c' r h
  have h' : regOf s c' = some r := h
  have hne : c' ≠ c := by
    intro heq
    rw [heq, hnone] at h'
    exact absurd h' (by simp)
  show (s.live.filter (· != c)).contains c' = true
  exact contains_filter_ne _ _ _ (hInv.regLive c' r h') hne

/-- Projections of `removeUser` in the found case: registry entry erased in
place, live set untouched, the removed reference filtered from every
bucket, and the heap either unchanged (no partner) or with only the
partner's pairing fields cleared. -/
theorem findUser_sessionInvariant (s : St) (c p : String) (t : Nat) (r : Nat) :
    findUserBySocketId (removeFromQueue (match lookupA s.sessionStartTimes c with
      | some t0 => { updateAverageSessionDuration s (t - t0) with
          sessionStartTimes := eraseA s.sessionStartTimes c }
      | none => s) r) p = findUserBySocketId s p := by
  have husers : (removeFromQueue (match lookupA s.sessionStartTimes c with
      | some t0 => { updateAverageSessionDuration s (t - t0) with
          sessionStartTimes := eraseA s.sessionStartTimes c }
      | none => s) r).users = s.users := by
    unfold updateAverageSessionDuration
    repeat' split
    all_goals rfl
  have hheap : (removeFromQueue (match lookupA s.sessionStartTimes c with
      | some t0 => { updateAverageSessionDuration s (t - t0) with
          sessionStartTimes := eraseA s.sessionStartTimes c }
      | none => s) r).heap = s.heap := by
    unfold updateAverageSessionDuration
    repeat' split
    all_goals rfl
  unfold findUserBySocketId regOf heapOf
  simp only [husers, hheap]

theorem removeUser_proj (s : St) (c : String) (t : Nat) (r : Nat) (u : User)
    (hfind : findUserBySocketId s c = some (r, u)) :
    (removeUser s c t).users = eraseA s.users c ∧
    (removeUser s c t).live = s.live ∧
    (removeUser s c t).nextRef = s.nextRef ∧
    (removeUser s c t).qMale = s.qMale.filter (· != r) ∧
    (removeUser s c t).qFemale = s.qFemale.filter (· != r) ∧
    (removeUser s c t).qOther = s.qOther.filter (· != r) ∧
    (removeUser s c t).qAny = s.qAny.filter (· != r) ∧
    ((∃ p pr pu, u.partnerId = some p ∧ findUserBySocketId s p = some (pr, pu) ∧
        (removeUser s c t).heap =
          setA s.heap pr { pu with partnerId := none, isMatched := false }) ∨
      ((removeUser s c t).heap = s.heap ∧
        (u.partnerId = none ∨
          ∃ p, u.partnerId = some p ∧ findUserBySocketId s p = none))) := by
  unfold removeUser
  rw [hfind]
  dsimp only
  rcases hpid : u.partnerId with _ | p
  · dsimp only
    unfold updateAverageSessionDuration
    repeat' split
    all_goals exact ⟨rfl, rfl, rfl, rfl, rfl, rfl, rfl, Or.inr ⟨rfl, Or.inl rfl⟩⟩
  · dsimp only
    rw [findUser_sessionInvariant s c p t r]
    rcases hfp : findUserBySocketId s p with _ | ⟨pr, pu⟩
    · dsimp only
      unfold updateAverageSessionDuration
      repeat' split
      all_goals exact ⟨rfl, rfl, rfl, rfl, rfl, rfl, rfl,
        Or.inr ⟨rfl, Or.inr ⟨p, rfl, hfp⟩⟩⟩
    · dsimp only
      unfold updateAverageSessionDuration
      repeat' split
      all_goals exact ⟨rfl, rfl, rfl, rfl, rfl, rfl, rfl,
        Or.inl ⟨p, pr, pu, rfl, hfp, rfl⟩⟩



/-- Removing a registered connection (registry entry erased, its reference
filtered from every bucket, its partner's pairing fields cleared, the
socket dropped from the live set) preserves the invariant; stated over the
projections established by `removeUser_proj`. -/
theorem inv_remove_abstract {s S : St} (hInv : Inv s) (c : String) (r : Nat) (u : User)
    (hrc : regOf s c = some r) (hhc : heapOf s r = some u)
    (husers : S.users = eraseA s.users c)
    (hlive : S.live = s.live.filter (· != c))
    (hn : S.nextRef = s.nextRef)
    (hqm : S.qMale = s.qMale.filter (· != r))
    (hqf : S.qFemale = s.qFemale.filter (· != r))
    (hqo : S.qOther = s.qOther.filter (· != r))
    (hqa : S.qAny = s.qAny.filter (· != r))
    (hheap : (∃ p pr pu, u.partnerId = some p ∧ regOf s p = some pr ∧ heapOf s pr = some pu ∧
        S.heap = setA s.heap pr { pu with partnerId := none, isMatched := false }) ∨
      (S.heap = s.heap ∧ u.partnerId = none)) :
    Inv S := by
  have hregOf : ∀ c', regOf S c' = if c' = c then none else regOf s c' := by
    intro c'
    show lookupA S.users c' = _
    rw [husers]
    exact lookupA_eraseA s.users c c'
  have hqrefs : queueRefs S = (queueRefs s).filter (· != r) := by
    unfold queueRefs
    rw [hqm, hqf, hqo, hqa]
    simp [List.filter_append]
  have hqmem : ∀ x, x ∈ queueRefs S → x ∈ queueRefs s ∧ x ≠ r := by
    intro x hx
    rw [hqrefs] at hx
    have := List.mem_filter.mp hx
    exact ⟨this.1, by simpa using this.2⟩
  rcases hheap with ⟨p, pr, pu, hup, hrp, hhp, hS⟩ | ⟨hS, hup⟩
  · -- partner-clearing case
    obtain ⟨pr2, pu2, hrp2, hhp2, hback2⟩ := hInv.sym c r u p hrc hhc hup
    rw [hrp, Option.some.injEq] at hrp2
    subst hrp2
    rw [hhp, Option.some.injEq] at hhp2
    subst hhp2
    have hback : pu.partnerId = some c := hback2
    have hpumatch : pu.isMatched = true := by
      rw [hInv.coupled p pr pu hrp hhp, hback]
      rfl
    have hlook : ∀ x, heapOf S x =
        if x = pr then some { pu with partnerId := none, isMatched := false }
        else heapOf s x := by
      intro x
      show lookupA S.heap x = _
      rw [hS]
      exact lookupA_setA s.heap pr x _
    have hkeys : S.heap.map (·.1) = s.heap.map (·.1) := by
      rw [hS]
      exact keys_setA_of_some _ (by rw [show lookupA s.heap pr = some pu from hhp]; rfl)
    constructor
    · rw [hkeys]
      exact hInv.heapKeys
    · rw [hkeys, hn]
      exact hInv.heapLt
    · rw [husers]
      exact hInv.regKeys.sublist (keys_eraseA_sublist s.users c)
    · intro c' x h
      rw [hregOf] at h
      split at h
      · exact absurd h (by simp)
      · obtain ⟨wu, hwu, hws⟩ := hInv.regSock c' x h
        rw [hlook x]
        by_cases hxpr : x = pr
        · rw [if_pos hxpr]
          rw [hxpr, hhp, Option.some.injEq] at hwu
          refine ⟨_, rfl, ?_⟩
          rw [← hws, ← hwu]
        · rw [if_neg hxpr]
          exact ⟨wu, hwu, hws⟩
    · intro c' x h
      rw [hregOf] at h
      split at h
      · exact absurd h (by simp)
      · next hne =>
        rw [hlive]
        exact contains_filter_ne _ _ _ (hInv.regLive c' x h) hne
    · intro c' x w h hw
      rw [hregOf] at h
      split at h
      · exact absurd h (by simp)
      · rw [hlook x] at hw
        split at hw
        · rw [Option.some.injEq] at hw
          rw [← hw]
          rfl
        · exact hInv.coupled c' x w h hw
    · intro c' rc' uc' p' hregc' hheapc' hpc'
      rw [hregOf] at hregc'
      split at hregc'
      · exact absurd hregc' (by simp)
      · next hc'ne =>
        rw [hlook rc'] at hheapc'
        split at hheapc'
        · rw [Option.some.injEq] at hheapc'
          rw [← hheapc'] at hpc'
          exact absurd hpc' (by simp)
        · next hrcne =>
          obtain ⟨ry, uy, hry, huy, hbacky⟩ := hInv.sym c' rc' uc' p' hregc' hheapc' hpc'
          have hp'ne : p' ≠ c := by
            intro heq
            rw [heq, hrc, Option.some.injEq] at hry
            rw [← hry, hhc, Option.some.injEq] at huy
            rw [← huy, hup, Option.some.injEq] at hbacky
            rw [← hbacky, hrp, Option.some.injEq] at hregc'
            exact hrcne hregc'.symm
          have hryne : ry ≠ pr := by
            intro heq
            rw [heq, hhp, Option.some.injEq] at huy
            rw [← huy, hback, Option.some.injEq] at hbacky
            exact hc'ne hbacky.symm
          refine ⟨ry, uy, ?_, ?_, hbacky⟩
          · rw [hregOf, if_neg hp'ne]
            exact hry
          · rw [hlook ry, if_neg hryne]
            exact huy
    · intro x hx
      obtain ⟨hxs, hxr⟩ := hqmem x hx
      obtain ⟨wu, hwu, hwm, hwp, hwr⟩ := hInv.queued x hxs
      have hxpr : x ≠ pr := by
        intro heq
        rw [heq, hhp, Option.some.injEq] at hwu
        rw [← hwu, hpumatch] at hwm
        exact absurd hwm (by simp)
      have hsockne : wu.socketId ≠ c := by
        intro heq
        rw [heq, hrc, Option.some.injEq] at hwr
        exact hxr hwr.symm
      refine ⟨wu, ?_, hwm, hwp, ?_⟩
      · rw [hlook x, if_neg hxpr]
        exact hwu
      · rw [hregOf, if_neg hsockne]
        exact hwr
    · rw [hqrefs]
      exact hInv.queueNodup.filter _
  · -- heap-unchanged case (removed user was unmatched)
    have hlook : ∀ x, heapOf S x = heapOf s x := by
      intro x
      show lookupA S.heap x = _
      rw [hS]
      rfl
    constructor
    · rw [show S.heap = s.heap from hS]
      exact hInv.heapKeys
    · rw [show S.heap = s.heap from hS, hn]
      exact hInv.heapLt
    · rw [husers]
      exact hInv.regKeys.sublist (keys_eraseA_sublist s.users c)
    · intro c' x h
      rw [hregOf] at h
      split at h
      · exact absurd h (by simp)
      · obtain ⟨wu, hwu, hws⟩ := hInv.regSock c' x h
        rw [hlook x]
        exact ⟨wu, hwu, hws⟩
    · intro c' x h
      rw [hregOf] at h
      split at h
      · exact absurd h (by simp)
      · next hne =>
        rw [hlive]
        exact contains_filter_ne _ _ _ (hInv.regLive c' x h) hne
    · intro c' x w h hw
      rw [hregOf] at h
      split at h
      · exact absurd h (by simp)
      · rw [hlook x] at hw
        exact hInv.coupled c' x w h hw
    · intro c' rc' uc' p' hregc' hheapc' hpc'
      rw [hregOf] at hregc'
      split at hregc'
      · exact absurd hregc' (by simp)
      · next hc'ne =>
        rw [hlook rc'] at hheapc'
        obtain ⟨ry, uy, hry, huy, hbacky⟩ := hInv.sym c' rc' uc' p' hregc' hheapc' hpc'
        have hp'ne : p' ≠ c := by
          intro heq
          rw [heq, hrc, Option.some.injEq] at hry
          rw [← hry, hhc, Option.some.injEq] at huy
          rw [← huy, hup] at hbacky
          exact absurd hbacky (by simp)
        refine ⟨ry, uy, ?_, ?_, hbacky⟩
        · rw [hregOf, if_neg hp'ne]
          exact hry
        · rw [hlook ry]
          exact huy
    · intro x hx
      obtain ⟨hxs, hxr⟩ := hqmem x hx
      obtain ⟨wu, hwu, hwm, hwp, hwr⟩ := hInv.queued x hxs
      have hsockne : wu.socketId ≠ c := by
        intro heq
        rw [heq, hrc, Option.some.injEq] at hwr
        exact hxr hwr.symm
      refine ⟨wu, ?_, hwm, hwp, ?_⟩
      · rw [hlook x]
        exact hwu
      · rw [hregOf, if_neg hsockne]
        exact hwr
    · rw [hqrefs]
      exact hInv.queueNodup.filter _



theorem inv_remove_dead {s : St} (hInv : Inv s) (c : String) (t : Nat) :
    Inv (removeUser { s with live := s.live.filter (· != c) } c t) := by
  rcases hfind : findUserBySocketId s c with _ | ⟨r, u⟩
  · have hfindF : findUserBySocketId { s with live := s.live.filter (· != c) } c = none :=
      hfind
    rw [removeUser_of_none _ c t hfindF]
    exact inv_live_filter_unreg hInv c (findUser_none_regOf hInv hfind)
  · obtain ⟨hrc, hhc⟩ := (findUserBySocketId_eq_some_iff s c r u).mp hfind
    have hfindF : findUserBySocketId { s with live := s.live.filter (· != c) } c =
        some (r, u) :=
      (findUserBySocketId_eq_some_iff _ c r u).mpr ⟨hrc, hhc⟩
    obtain ⟨hu1, hl1, hn1, hq1, hq2, hq3, hq4, hh1⟩ := removeUser_proj _ c t r u hfindF
    refine inv_remove_abstract hInv c r u hrc hhc hu1 ?_ hn1 hq1 hq2 hq3 hq4 ?_
    · rw [hl1]
    · rcases hh1 with ⟨p, pr, pu, hup, hfp, hheq⟩ | ⟨hheq, hrest⟩
      · obtain ⟨hrp, hhp⟩ := (findUserBySocketId_eq_some_iff _ p pr pu).mp hfp
        exact Or.inl ⟨p, pr, pu, hup, hrp, hhp, hheq⟩
      · right
        refine ⟨hheq, ?_⟩
        rcases hrest with hnone | ⟨p, hup, hfpn⟩
        · exact hnone
        · exfalso
          obtain ⟨pr, pu, hrp, hhp, _⟩ := hInv.sym c r u p hrc hhc hup
          have hcontra : findUserBySocketId { s with live := s.live.filter (· != c) } p =
              some (pr, pu) :=
            (findUserBySocketId_eq_some_iff _ p pr pu).mpr ⟨hrp, hhp⟩
          rw [hfpn] at hcontra
          exact absurd hcontra (by simp)

theorem inv_remove_then_filter {s : St} (hInv : Inv s) (c : String) (t : Nat) :
    Inv { removeUser s c t with live := (removeUser s c t).live.filter (· != c) } := by
  rcases hfind : findUserBySocketId s c with _ | ⟨r, u⟩
  · rw [removeUser_of_none s c t hfind]
    exact inv_live_filter_unreg hInv c (findUser_none_regOf hInv hfind)
  · obtain ⟨hrc, hhc⟩ := (findUserBySocketId_eq_some_iff s c r u).mp hfind
    obtain ⟨hu1, hl1, hn1, hq1, hq2, hq3, hq4, hh1⟩ := removeUser_proj s c t r u hfind
    refine inv_remove_abstract hInv c r u hrc hhc hu1 ?_ hn1 hq1 hq2 hq3 hq4 ?_
    · show (removeUser s c t).live.filter (· != c) = s.live.filter (· != c)
      rw [hl1]
    · rcases hh1 with ⟨p, pr, pu, hup, hfp, hheq⟩ | ⟨hheq, hrest⟩
      · obtain ⟨hrp, hhp⟩ := (findUserBySocketId_eq_some_iff s p pr pu).mp hfp
        exact Or.inl ⟨p, pr, pu, hup, hrp, hhp, hheq⟩
      · right
        refine ⟨hheq, ?_⟩
        rcases hrest with hnone | ⟨p, hup, hfpn⟩
        · exact hnone
        · exfalso
          obtain ⟨pr, pu, hrp, hhp, _⟩ := hInv.sym c r u p hrc hhc hup
          have hcontra : findUserBySocketId s p = some (pr, pu) :=
            (findUserBySocketId_eq_some_iff s p pr pu).mpr ⟨hrp, hhp⟩
          rw [hfpn] at hcontra
          exact absurd hcontra (by simp)

theorem inv_hDisconnect {s : St} (sock : String) (now : Nat) (hInv : Inv s) :
    Inv (hDisconnect s sock now) := by
  unfold hDisconnect
  exact inv_remove_dead hInv sock now

theorem inv_sweepList (now : Nat) (l : List String) {s : St} (hInv : Inv s) :
    Inv (sweepList now l s) := by
  induction l generalizing s with
  | nil => exact hInv
  | cons c rest ih =>
    unfold sweepList
    dsimp only
    apply ih
    split
    · split
      · exact inv_remove_then_filter hInv c now
      · exact hInv
    · exact hInv

theorem inv_cleanup {s : St} (now : Nat) (hInv : Inv s) :
    Inv (cleanupInactiveUsers s now) := by
  unfold cleanupInactiveUsers
  dsimp only
  exact (inv_sweepList now _ hInv).sameFields rfl rfl rfl rfl rfl rfl rfl rfl



theorem firstUserWithId_mem (heap : List (Nat × User)) (uid : String)
    (users : List (String × Nat)) (r : Nat) (u : User)
    (h : firstUserWithId heap uid users = some (r, u)) : ∃ cX, (cX, r) ∈ users := by
  induction users with
  | nil => exact absurd h (by simp [firstUserWithId])
  | cons p rest ih =>
    unfold firstUserWithId at h
    rcases hl : lookupA heap p.2 with _ | v <;> rw [hl] at h
    · obtain ⟨cX, hm⟩ := ih h
      exact ⟨cX, List.mem_cons_of_mem _ hm⟩
    · dsimp only at h
      by_cases hv : (v.id == uid) = true
      · rw [if_pos hv] at h
        simp only [Option.some.injEq, Prod.mk.injEq] at h
        refine ⟨p.1, ?_⟩
        rw [← h.1]
        exact List.mem_cons_self _ _
      · rw [if_neg hv] at h
        obtain ⟨cX, hm⟩ := ih h
        exact ⟨cX, List.mem_cons_of_mem _ hm⟩

theorem inv_reportUser {s : St} (a b reason : String) (now : Nat) (hInv : Inv s) :
    Inv (reportUser s a b reason now).1 := by
  have hInv1 : Inv { s with
      reportHistory := s.reportHistory ++ [(a, b, now)]
      totalReports := s.totalReports + 1 } :=
    hInv.sameFields rfl rfl rfl rfl rfl rfl rfl rfl
  unfold reportUser
  dsimp only
  split
  · exact hInv
  · split
    · exact hInv
    · split
      · exact hInv1
      · next r0 u0 hfu =>
        have hh0 : heapOf s r0 = some u0 := firstUserWithId_heap _ b _ r0 u0 hfu
        have hInv2 : Inv { s with
            heap := setA s.heap r0 { u0 with reportCount := u0.reportCount + 1 }
            totalReports := s.totalReports + 1
            reportHistory := s.reportHistory ++ [(a, b, now)] } := by
          refine hInv.ofCore rfl rfl rfl rfl rfl rfl rfl ?_ ?_
          · exact keys_setA_of_some _
              (by rw [show lookupA s.heap r0 = some u0 from hh0]; rfl)
          · intro x w hx
            show ∃ w', lookupA (setA s.heap r0 _) x = some w' ∧ _
            rw [lookupA_setA]
            by_cases hxr : x = r0
            · rw [if_pos hxr]
              rw [hxr, hh0, Option.some.injEq] at hx
              subst hx
              exact ⟨_, rfl, rfl, rfl, rfl⟩
            · rw [if_neg hxr]
              exact ⟨w, hx, rfl, rfl, rfl⟩
        split
        · split
          · exact @inv_remove_dead
              { s with
                heap := setA s.heap r0 { u0 with reportCount := u0.reportCount + 1 }
                totalReports := s.totalReports + 1
                reportHistory := s.reportHistory ++ [(a, b, now)]
                bannedUsers := if s.bannedUsers.contains u0.id = true then s.bannedUsers
                  else s.bannedUsers ++ [u0.id]
                emits := s.emits ++ [Emit.bannedMsg u0.socketId] }
              (hInv2.sameFields rfl rfl rfl rfl rfl rfl rfl rfl)
              u0.socketId now
          · exact hInv2.sameFields rfl rfl rfl rfl rfl rfl rfl rfl
        · exact hInv2

theorem inv_hReport {s : St} (sock reason : String) (now : Nat) (hInv : Inv s) :
    Inv (hReport s sock reason now) := by
  unfold hReport
  have hT := inv_touch sock now hInv
  dsimp only
  split
  · exact hT
  · next r0 user hf =>
    split
    · exact hT
    · next p hp =>
      split
      · exact hT
      · split
        · exact hT
        · next pr partner hfp =>
          split
          · next s1 hrep =>
            have hInv1 : Inv s1 := by
              have hres := inv_reportUser user.id partner.id reason now hT
              rw [hrep] at hres
              exact hres
            apply inv_emit
            split
            · exact inv_emit _ hInv1
            · exact hInv1
          · next s1 hrep =>
            have hInv1 : Inv s1 := by
              have hres := inv_reportUser user.id partner.id reason now hT
              rw [hrep] at hres
              exact hres
            exact inv_emit _ hInv1



theorem heapOf_fresh {s : St} (hInv : Inv s) : heapOf s s.nextRef = none := by
  rcases h : heapOf s s.nextRef with _ | u
  · rfl
  · exfalso
    have hk : s.nextRef ∈ s.heap.map (·.1) :=
      List.mem_map.mpr ⟨(s.nextRef, u), mem_of_lookupA h, rfl⟩
    exact absurd (hInv.heapLt _ hk) (by omega)

theorem keys_lt_of_heapOf {s : St} (hInv : Inv s) {x : Nat} {u : User}
    (h : heapOf s x = some u) : x < s.nextRef :=
  hInv.heapLt x (List.mem_map.mpr ⟨(x, u), mem_of_lookupA h, rfl⟩)

theorem no_ptr_at_unreg {s : St} (hInv : Inv s) {c : String} (hnone : regOf s c = none)
    {c' : String} {r' : Nat} {u' : User} (hr' : regOf s c' = some r')
    (hu' : heapOf s r' = some u') : u'.partnerId ≠ some c := by
  intro hp
  obtain ⟨pr, pu, hpr, _, _⟩ := hInv.sym c' r' u' c hr' hu' hp
  rw [hnone] at hpr
  exact absurd hpr (by simp)

theorem notin_keys_of_lookupA_none {α β : Type} [BEq α] [LawfulBEq α] [DecidableEq α]
    {m : List (α × β)} {k : α} (h : lookupA m k = none) : k ∉ m.map (·.1) := by
  intro hmem
  obtain ⟨p, hp, hfst⟩ := List.mem_map.mp hmem
  have := lookupA_isSome_of_mem (show (k, p.2) ∈ m from by
    rcases p with ⟨a, b⟩
    dsimp only at hfst
    rw [← hfst]
    exact hp)
  rw [h] at this
  exact absurd this (by simp)

theorem inv_addUser_fresh {s : St} (hInv : Inv s) (sock : String) (d : UserData) (now : Nat)
    {s1 : St} {r : Nat} (hnone : regOf s sock = none) (hlive : s.live.contains sock = true)
    (h : addUser s sock d now = .ok (s1, r)) : Inv s1 := by
  obtain ⟨hr, hs1, _, _⟩ := addUser_ok_inv s sock d now s1 r h
  subst hr
  subst hs1
  have hfresh : heapOf s s.nextRef = none := heapOf_fresh hInv
  have hreg' : ∀ c, lookupA (setA s.users sock s.nextRef) c =
      if c = sock then some s.nextRef else lookupA s.users c := by
    intro c
    rw [setA_of_none _ hnone]
    exact lookupA_snoc s.users sock c s.nextRef hnone
  have hheap' : ∀ x, lookupA (s.heap ++ [(s.nextRef, freshUser sock d now)]) x =
      if x = s.nextRef then some (freshUser sock d now) else lookupA s.heap x :=
    fun x => lookupA_snoc s.heap s.nextRef x _ hfresh
  constructor
  · show ((s.heap ++ [(s.nextRef, freshUser sock d now)]).map (·.1)).Nodup
    rw [List.map_append]
    refine hInv.heapKeys.append (by simp) ?_
    intro a ha hb
    simp only [List.map_cons, List.map_nil, List.mem_cons, List.not_mem_nil, or_false] at hb
    subst hb
    exact absurd (hInv.heapLt _ ha) (by omega)
  · intro x hx
    show x < s.nextRef + 1
    rw [show (({ s with
        heap := s.heap ++ [(s.nextRef, freshUser sock d now)]
        nextRef := s.nextRef + 1
        users := setA s.users sock s.nextRef
        sessionStartTimes := setA s.sessionStartTimes sock now
        activeUsers := (setA s.users sock s.nextRef).length
        peakConcurrentUsers := max s.peakConcurrentUsers
          (setA s.users sock s.nextRef).length } : St).heap) =
      s.heap ++ [(s.nextRef, freshUser sock d now)] from rfl] at hx
    rw [List.map_append] at hx
    rcases List.mem_append.mp hx with h1 | h2
    · exact Nat.lt_trans (hInv.heapLt x h1) (by omega)
    · simp only [List.map_cons, List.map_nil, List.mem_cons, List.not_mem_nil, or_false] at h2
      omega
  · show ((setA s.users sock s.nextRef).map (·.1)).Nodup
    rw [setA_of_none _ hnone, List.map_append]
    refine hInv.regKeys.append (by simp) ?_
    intro a ha hb
    simp only [List.map_cons, List.map_nil, List.mem_cons, List.not_mem_nil, or_false] at hb
    subst hb
    exact notin_keys_of_lookupA_none hnone ha
  · intro c x hcx
    have h2 : lookupA (setA s.users sock s.nextRef) c = some x := hcx
    rw [hreg'] at h2
    show ∃ u, lookupA (s.heap ++ [(s.nextRef, freshUser sock d now)]) x = some u ∧
      u.socketId = c
    rw [hheap' x]
    split at h2
    · next hc =>
      rw [Option.some.injEq] at h2
      rw [if_pos h2.symm, hc]
      exact ⟨_, rfl, rfl⟩
    · obtain ⟨u, hu, hs⟩ := hInv.regSock c x h2
      rw [if_neg (by
        intro heq
        rw [heq, hfresh] at hu
        exact absurd hu (by simp))]
      exact ⟨u, hu, hs⟩
  · intro c x hcx
    have h2 : lookupA (setA s.users sock s.nextRef) c = some x := hcx
    rw [hreg'] at h2
    show s.live.contains c = true
    split at h2
    · next hc =>
      rw [hc]
      exact hlive
    · exact hInv.regLive c x h2
  · intro c x w hcx hw
    have h2 : lookupA (setA s.users sock s.nextRef) c = some x := hcx
    rw [hreg'] at h2
    have h3 : lookupA (s.heap ++ [(s.nextRef, freshUser sock d now)]) x = some w := hw
    rw [hheap' x] at h3
    split at h3
    · rw [Option.some.injEq] at h3
      rw [← h3]
      rfl
    · split at h2
      · rw [Option.some.injEq] at h2
        rw [← h2] at h3
        rw [show lookupA s.heap s.nextRef = none from hfresh] at h3
        exact absurd h3 (by simp)
      · exact hInv.coupled c x w h2 h3
  · intro c x w p hcx hw hp
    have h2 : lookupA (setA s.users sock s.nextRef) c = some x := hcx
    rw [hreg'] at h2
    have h3 : lookupA (s.heap ++ [(s.nextRef, freshUser sock d now)]) x = some w := hw
    rw [hheap' x] at h3
    split at h3
    · rw [Option.some.injEq] at h3
      rw [← h3] at hp
      exact absurd hp (by simp [freshUser])
    · next hxne =>
      split at h2
      · rw [Option.some.injEq] at h2
        exact absurd h2.symm hxne
      · obtain ⟨ry, uy, hry, huy, hback⟩ := hInv.sym c x w p h2 h3 hp
        have hpne : p ≠ sock := by
          intro heq
          rw [heq] at hp
          exact no_ptr_at_unreg hInv hnone h2 h3 hp
        have hyne : ry ≠ s.nextRef := by
          intro heq
          rw [heq, hfresh] at huy
          exact absurd huy (by simp)
        refine ⟨ry, uy, ?_, ?_, hback⟩
        · show lookupA (setA s.users sock s.nextRef) p = some ry
          rw [hreg', if_neg hpne]
          exact hry
        · show lookupA (s.heap ++ [(s.nextRef, freshUser sock d now)]) ry = some uy
          rw [hheap' ry, if_neg hyne]
          exact huy
  · intro x hx
    have hx' : x ∈ queueRefs s := hx
    obtain ⟨w, hw, h1, h2, h3⟩ := hInv.queued x hx'
    have hxne : x ≠ s.nextRef := by
      intro heq
      rw [heq, hfresh] at hw
      exact absurd hw (by simp)
    have hsne : w.socketId ≠ sock := by
      intro heq
      rw [heq, hnone] at h3
      exact absurd h3 (by simp)
    refine ⟨w, ?_, h1, h2, ?_⟩
    · show lookupA (s.heap ++ [(s.nextRef, freshUser sock d now)]) x = some w
      rw [hheap' x, if_neg hxne]
      exact hw
    · show lookupA (setA s.users sock s.nextRef) w.socketId = some x
      rw [hreg', if_neg hsne]
      exact h3
  · exact hInv.queueNodup



theorem scanBucket_mem (heap : List (Nat × User)) (banned : List String) (u : User)
    (q : List Nat) (mr : Nat) (pm : User)
    (h : scanBucket heap banned u q = some (mr, pm)) : mr ∈ q := by
  induction q with
  | nil => exact absurd h (by simp [scanBucket])
  | cons x rest ih =>
    unfold scanBucket at h
    rcases hl : lookupA heap x with _ | v <;> rw [hl] at h
    · exact List.mem_cons_of_mem _ (ih h)
    · dsimp only at h
      split at h
      · exact List.mem_cons_of_mem _ (ih h)
      · split at h
        · simp only [Option.some.injEq, Prod.mk.injEq] at h
          rw [← h.1]
          exact List.mem_cons_self _ _
        · exact List.mem_cons_of_mem _ (ih h)

theorem bucket?_sub (s : St) (qn : String) (q : List Nat)
    (h : s.bucket? qn = some q) : ∀ x ∈ q, x ∈ queueRefs s := by
  unfold St.bucket? at h
  intro x hx
  unfold queueRefs
  repeat' split at h
  all_goals first
    | (rw [Option.some.injEq] at h
       rw [← h] at hx
       simp only [List.mem_append]
       tauto)
    | exact absurd h (by simp)

theorem searchQueues_mem (s : St) (u : User) (names : List String) (mr : Nat) (pm : User)
    (h : searchQueues s u names = some (mr, pm)) : mr ∈ queueRefs s := by
  induction names with
  | nil => exact absurd h (by simp [searchQueues])
  | cons qn rest ih =>
    unfold searchQueues at h
    rcases hb : s.bucket? qn with _ | q <;> rw [hb] at h
    · exact ih h
    · dsimp only at h
      rcases hs : scanBucket s.heap s.bannedUsers u q with _ | rv <;> rw [hs] at h
      · exact ih h
      · rw [Option.some.injEq] at h
        subst h
        exact bucket?_sub s qn q hb mr (scanBucket_mem _ _ _ q mr pm hs)

theorem inv_removeFromQueue {s : St} (hInv : Inv s) (r : Nat) :
    Inv (removeFromQueue s r) := by
  have hq : queueRefs (removeFromQueue s r) = (queueRefs s).filter (· != r) := by
    simp [queueRefs, removeFromQueue, List.filter_append]
  constructor
  · exact hInv.heapKeys
  · exact hInv.heapLt
  · exact hInv.regKeys
  · exact hInv.regSock
  · exact hInv.regLive
  · exact hInv.coupled
  · exact hInv.sym
  · intro x hx
    rw [hq] at hx
    exact hInv.queued x (List.mem_filter.mp hx).1
  · rw [hq]
    exact hInv.queueNodup.filter _

theorem sAdd_of_not_mem (q : List Nat) (r : Nat) (h : r ∉ q) : sAdd q r = q ++ [r] := by
  unfold sAdd
  rw [if_neg (by simpa using h)]

theorem nodup_mid (l1 l2 : List Nat) (r : Nat) (h : (l1 ++ l2).Nodup)
    (hr : r ∉ l1 ++ l2) : (l1 ++ r :: l2).Nodup :=
  (List.perm_middle.nodup_iff).mpr (List.nodup_cons.mpr ⟨hr, h⟩)



/-- A state that differs from `s` only by a queue permutation that inserts
the fresh unmatched reference `r` and drops duplicates of it satisfies the
invariant. -/
theorem inv_setqueues {s S : St} (hInv : Inv s) (r : Nat) (u : User)
    (hu : heapOf s r = some u) (hm : u.isMatched = false) (hp : u.partnerId = none)
    (hreg : regOf s u.socketId = some r)
    (hheap : S.heap = s.heap) (husers : S.users = s.users) (hlive : S.live = s.live)
    (hn : S.nextRef = s.nextRef)
    (hperm : (queueRefs S).Perm (r :: (queueRefs s).filter (· != r))) : Inv S := by
  have hregOf : ∀ c, regOf S c = regOf s c := by
    intro c
    unfold regOf
    rw [husers]
  have hheapOf : ∀ x, heapOf S x = heapOf s x := by
    intro x
    unfold heapOf
    rw [hheap]
  constructor
  · rw [hheap]
    exact hInv.heapKeys
  · rw [hheap, hn]
    exact hInv.heapLt
  · rw [husers]
    exact hInv.regKeys
  · intro c x h
    rw [hregOf] at h
    obtain ⟨w, hw, hs⟩ := hInv.regSock c x h
    exact ⟨w, by rw [hheapOf]; exact hw, hs⟩
  · intro c x h
    rw [hregOf] at h
    rw [hlive]
    exact hInv.regLive c x h
  · intro c x w h hw
    rw [hregOf] at h
    rw [hheapOf] at hw
    exact hInv.coupled c x w h hw
  · intro c x w p h hw hpp
    rw [hregOf] at h
    rw [hheapOf] at hw
    obtain ⟨ry, uy, h1, h2, h3⟩ := hInv.sym c x w p h hw hpp
    exact ⟨ry, uy, by rw [hregOf]; exact h1, by rw [hheapOf]; exact h2, h3⟩
  · intro x hx
    have hx' := hperm.mem_iff.mp hx
    rw [List.mem_cons] at hx'
    rcases hx' with rfl | hxf
    · exact ⟨u, by rw [hheapOf]; exact hu, hm, hp, by rw [hregOf]; exact hreg⟩
    · obtain ⟨w, hw, h1, h2, h3⟩ := hInv.queued x (List.mem_filter.mp hxf).1
      exact ⟨w, by rw [hheapOf]; exact hw, h1, h2, by rw [hregOf]; exact h3⟩
  · exact hperm.nodup_iff.mpr
      (List.nodup_cons.mpr ⟨notin_filter_bne_self _ _, hInv.queueNodup.filter _⟩)

theorem inv_addToQueue_fresh {s : St} (hInv : Inv s) (r : Nat) (u : User)
    (hu : heapOf s r = some u) (hm : u.isMatched = false) (hp : u.partnerId = none)
    (hreg : regOf s u.socketId = some r) : Inv (addToQueue s r) := by
  have hqF : (queueRefs s).filter (· != r) =
      s.qMale.filter (· != r) ++ (s.qFemale.filter (· != r) ++
        (s.qOther.filter (· != r) ++ s.qAny.filter (· != r))) := by
    simp [queueRefs, List.filter_append]
  unfold addToQueue
  rw [show heapOf s r = some u from hu]
  dsimp only
  rw [if_neg (by rw [hm]; simp)]
  split
  · exact inv_removeFromQueue hInv r
  · next q hq =>
    unfold St.bucket? at hq
    unfold St.setBucket
    split at hq
    · next hn1 =>
      rw [if_pos hn1]
      rw [Option.some.injEq] at hq
      subst hq
      refine inv_setqueues hInv r u hu hm hp hreg rfl rfl rfl rfl ?_
      rw [hqF]
      simp [sAdd_of_not_mem _ _ (notin_filter_bne_self s.qMale r), queueRefs,
        List.append_assoc, removeFromQueue]
    · next hn1 =>
      split at hq
      · next hn2 =>
        rw [if_neg hn1, if_pos hn2]
        rw [Option.some.injEq] at hq
        subst hq
        refine inv_setqueues hInv r u hu hm hp hreg rfl rfl rfl rfl ?_
        rw [hqF]
        simpa [sAdd_of_not_mem _ _ (notin_filter_bne_self s.qFemale r), queueRefs,
            List.append_assoc, removeFromQueue]
          using (@List.perm_middle Nat r
            (s.qMale.filter (· != r) ++ s.qFemale.filter (· != r))
            (s.qOther.filter (· != r) ++ s.qAny.filter (· != r)))
      · next hn2 =>
        split at hq
        · next hn3 =>
          rw [if_neg hn1, if_neg hn2, if_pos hn3]
          rw [Option.some.injEq] at hq
          subst hq
          refine inv_setqueues hInv r u hu hm hp hreg rfl rfl rfl rfl ?_
          rw [hqF]
          simpa [sAdd_of_not_mem _ _ (notin_filter_bne_self s.qOther r), queueRefs,
              List.append_assoc, removeFromQueue]
            using (@List.perm_middle Nat r
              (s.qMale.filter (· != r) ++ (s.qFemale.filter (· != r) ++
                s.qOther.filter (· != r)))
              (s.qAny.filter (· != r)))
        · next hn3 =>
          split at hq
          · next hn4 =>
            rw [if_neg hn1, if_neg hn2, if_neg hn3, if_pos hn4]
            rw [Option.some.injEq] at hq
            subst hq
            refine inv_setqueues hInv r u hu hm hp hreg rfl rfl rfl rfl ?_
            rw [hqF]
            simpa [sAdd_of_not_mem _ _ (notin_filter_bne_self s.qAny r), queueRefs,
                List.append_assoc, removeFromQueue]
              using (@List.perm_middle Nat r
                (s.qMale.filter (· != r) ++ (s.qFemale.filter (· != r) ++
                  (s.qOther.filter (· != r) ++ s.qAny.filter (· != r))))
                ([] : List Nat))
          · exact absurd hq (by simp)



theorem inv_findMatch_some {s : St} (hInv : Inv s) (r : Nat) (s2 : St) (mr : Nat) (pm : User)
    (u : User) (hu : heapOf s r = some u) (hreg : regOf s u.socketId = some r)
    (h : findMatch s r = (s2, some (mr, pm))) :
    Inv s2 ∧ s2.live.contains pm.socketId = true := by
  obtain ⟨u', v, hu', hm', hsq, hv, hcompat, hpm, hs2⟩ := findMatch_some_inv s r s2 mr pm h
  rw [hu, Option.some.injEq] at hu'
  subst hu'
  have hmrq : mr ∈ queueRefs s := searchQueues_mem s u _ mr v hsq
  obtain ⟨w, hw, hvm, hvp, hvr⟩ := hInv.queued mr hmrq
  rw [hv, Option.some.injEq] at hw
  subst hw
  have hup : u.partnerId = none := by
    have hc := hInv.coupled u.socketId r u hreg hu
    rw [hm'] at hc
    rcases hx : u.partnerId with _ | p
    · rfl
    · rw [hx] at hc
      exact absurd hc.symm (by simp)
  have hsockne : v.socketId ≠ u.socketId :=
    (compat_socketId_ne s.bannedUsers u v hcompat).symm
  have hrne : mr ≠ r := by
    intro heq
    exact hsockne (hInv.regInj hvr (by rw [heq]; exact hreg))
  subst hs2
  subst hpm
  have hlook : ∀ x, heapOf { s with
      qMale := (s.qMale.filter (· != r)).filter (· != mr)
      qFemale := (s.qFemale.filter (· != r)).filter (· != mr)
      qOther := (s.qOther.filter (· != r)).filter (· != mr)
      qAny := (s.qAny.filter (· != r)).filter (· != mr)
      heap := setA (setA s.heap r { u with isMatched := true, partnerId := some v.socketId })
        mr { v with isMatched := true, partnerId := some u.socketId }
      totalMatches := s.totalMatches + 1 } x =
      if x = mr then some { v with isMatched := true, partnerId := some u.socketId }
      else if x = r then some { u with isMatched := true, partnerId := some v.socketId }
      else heapOf s x := by
    intro x
    show lookupA (setA (setA s.heap r _) mr _) x = _
    rw [lookupA_setA]
    by_cases h1 : x = mr
    · rw [if_pos h1, if_pos h1]
    · rw [if_neg h1, if_neg h1, lookupA_setA]
      rfl
  constructor
  · constructor
    · show ((setA (setA s.heap r _) mr _).map (·.1)).Nodup
      rw [keys_setA_of_some, keys_setA_of_some]
      · exact hInv.heapKeys
      · rw [show lookupA s.heap r = some u from hu]
        rfl
      · rw [lookupA_setA, if_neg hrne, show lookupA s.heap mr = some v from hv]
        rfl
    · intro x hx
      show x < s.nextRef
      rw [show (setA (setA s.heap r
            { u with isMatched := true, partnerId := some v.socketId }) mr
            { v with isMatched := true, partnerId := some u.socketId }).map (·.1) =
            s.heap.map (·.1) from by
          rw [keys_setA_of_some, keys_setA_of_some]
          · rw [show lookupA s.heap r = some u from hu]
            rfl
          · rw [lookupA_setA, if_neg hrne, show lookupA s.heap mr = some v from hv]
            rfl] at hx
      exact hInv.heapLt x hx
    · exact hInv.regKeys
    · intro c x hcx
      have h2 : regOf s c = some x := hcx
      obtain ⟨wu, hwu, hws⟩ := hInv.regSock c x h2
      rw [hlook x]
      by_cases h1 : x = mr
      · rw [if_pos h1]
        rw [h1, hv, Option.some.injEq] at hwu
        refine ⟨_, rfl, ?_⟩
        rw [← hws, ← hwu]
      · rw [if_neg h1]
        by_cases h3 : x = r
        · rw [if_pos h3]
          rw [h3, hu, Option.some.injEq] at hwu
          refine ⟨_, rfl, ?_⟩
          rw [← hws, ← hwu]
        · rw [if_neg h3]
          exact ⟨wu, hwu, hws⟩
    · intro c x hcx
      have h2 : regOf s c = some x := hcx
      show s.live.contains c = true
      exact hInv.regLive c x h2
    · intro c x w hcx hw
      have h2 : regOf s c = some x := hcx
      rw [hlook x] at hw
      split at hw
      · rw [Option.some.injEq] at hw
        rw [← hw]
        rfl
      · split at hw
        · rw [Option.some.injEq] at hw
          rw [← hw]
          rfl
        · exact hInv.coupled c x w h2 hw
    · intro c x w p hcx hw hpp
      have h2 : regOf s c = some x := hcx
      rw [hlook x] at hw
      split at hw
      · next h1 =>
        rw [Option.some.injEq] at hw
        rw [← hw] at hpp
        simp only [Option.some.injEq] at hpp
        subst h1
        have hc : c = v.socketId := hInv.regInj h2 hvr
        refine ⟨r, { u with isMatched := true, partnerId := some v.socketId }, ?_, ?_, ?_⟩
        · show regOf s p = some r
          rw [← hpp]
          exact hreg
        · rw [hlook r, if_neg hrne.symm, if_pos rfl]
        · rw [hc]
      · next h1 =>
        split at hw
        · next h3 =>
          rw [Option.some.injEq] at hw
          rw [← hw] at hpp
          simp only [Option.some.injEq] at hpp
          subst h3
          have hc : c = u.socketId := hInv.regInj h2 hreg
          refine ⟨mr, { v with isMatched := true, partnerId := some u.socketId }, ?_, ?_, ?_⟩
          · show regOf s p = some mr
            rw [← hpp]
            exact hvr
          · rw [hlook mr, if_pos rfl]
          · rw [hc]
        · next h3 =>
          obtain ⟨ry, uy, hry, huy, hbacky⟩ := hInv.sym c x w p h2 hw hpp
          have hpu : p ≠ u.socketId := by
            intro heq
            rw [heq, hreg, Option.some.injEq] at hry
            rw [← hry, hu, Option.some.injEq] at huy
            rw [← huy, hup] at hbacky
            exact absurd hbacky (by simp)
          have hpv : p ≠ v.socketId := by
            intro heq
            rw [heq, hvr, Option.some.injEq] at hry
            rw [← hry, hv, Option.some.injEq] at huy
            rw [← huy, hvp] at hbacky
            exact absurd hbacky (by simp)
          have hyr : ry ≠ r := by
            intro heq
            rw [heq] at hry
            exact hpu (hInv.regInj hry hreg)
          have hymr : ry ≠ mr := by
            intro heq
            rw [heq] at hry
            exact hpv (hInv.regInj hry hvr)
          refine ⟨ry, uy, ?_, ?_, hbacky⟩
          · show regOf s p = some ry
            exact hry
          · rw [hlook ry, if_neg hymr, if_neg hyr]
            exact huy
    · intro x hx
      have hx' : x ∈ ((s.qMale.filter (· != r)).filter (· != mr)) ++
          (((s.qFemale.filter (· != r)).filter (· != mr)) ++
            (((s.qOther.filter (· != r)).filter (· != mr)) ++
              ((s.qAny.filter (· != r)).filter (· != mr)))) := by
        simpa [queueRefs, List.append_assoc] using hx
      have hx2 : x ∈ ((queueRefs s).filter (· != r)).filter (· != mr) := by
        simpa [queueRefs, List.filter_append, List.append_assoc] using hx'
      have hxmem : x ∈ queueRefs s :=
        (List.mem_filter.mp (List.mem_filter.mp hx2).1).1
      have hxr : x ≠ r := by
        have := (List.mem_filter.mp (List.mem_filter.mp hx2).1).2
        simpa using this
      have hxmr : x ≠ mr := by
        have := (List.mem_filter.mp hx2).2
        simpa using this
      obtain ⟨wu, hwu, hwm, hwp, hwr⟩ := hInv.queued x hxmem
      refine ⟨wu, ?_, hwm, hwp, ?_⟩
      · rw [hlook x, if_neg hxmr, if_neg hxr]
        exact hwu
      · show regOf s wu.socketId = some x
        exact hwr
    · show ((((s.qMale.filter (· != r)).filter (· != mr)) ++
          ((s.qFemale.filter (· != r)).filter (· != mr)) ++
          ((s.qOther.filter (· != r)).filter (· != mr)) ++
          ((s.qAny.filter (· != r)).filter (· != mr))) : List Nat).Nodup
      have : (((queueRefs s).filter (· != r)).filter (· != mr)).Nodup :=
        (hInv.queueNodup.filter _).filter _
      simpa [queueRefs, List.filter_append, List.append_assoc] using this
  · show s.live.contains v.socketId = true
    exact hInv.regLive v.socketId mr hvr



theorem inv_hFindPartner {s : St} (sock : String) (d : UserData) (now : Nat) (hInv : Inv s)
    (hfresh : regOf s sock = none) (hlive : s.live.contains sock = true) :
    Inv (hFindPartner s sock d now) := by
  unfold hFindPartner
  have hT := inv_touch sock now hInv
  dsimp only
  split
  · exact inv_emit _ hT
  · split
    · exact inv_emit _ hT
    · set sT := updateUserActivity s sock now with hsT
      have hfreshT : regOf sT sock = none := by
        show lookupA sT.users sock = none
        rw [(updateUserActivity_frame s sock now).1]
        exact hfresh
      have hliveT : sT.live.contains sock = true := by
        rw [(updateUserActivity_frame s sock now).2.1]
        exact hlive
      have hheapfresh : lookupA sT.heap sT.nextRef = none := heapOf_fresh hT
      split
      · exact inv_emit _ hT
      · next s1 r hadd =>
        have hInv1 : Inv s1 := inv_addUser_fresh hT sock _ now hfreshT hliveT hadd
        obtain ⟨hr', hs1eq, _, _⟩ := addUser_ok_inv sT sock _ now s1 r hadd
        subst hr'
        have hreg1 : regOf s1 sock = some sT.nextRef := by
          rw [hs1eq]
          show lookupA (setA sT.users sock sT.nextRef) sock = some sT.nextRef
          exact lookupA_setA_self _ _ _
        have hheap1 : heapOf s1 sT.nextRef = some (freshUser sock (coercePref d) now) := by
          rw [hs1eq]
          show lookupA (sT.heap ++ [(sT.nextRef, freshUser sock (coercePref d) now)])
            sT.nextRef = _
          rw [lookupA_snoc _ _ _ _ hheapfresh, if_pos rfl]
        split
        · next s2 mr pm hfm =>
          obtain ⟨hInv2, hlive2⟩ := inv_findMatch_some hInv1 sT.nextRef s2 mr pm
            (freshUser sock (coercePref d) now) hheap1 hreg1 hfm
          rw [hlive2]
          rw [if_pos rfl]
          exact inv_emit _ (inv_emit _ hInv2)
        · next s2 hfm =>
          have hs2 : s2 = s1 := findMatch_none_inv s1 sT.nextRef s2 hfm
          subst hs2
          exact inv_emit _ (inv_addToQueue_fresh hInv1 sT.nextRef _ hheap1 rfl rfl hreg1)



theorem inv_step {s : St} (op : Op) (hInv : Inv s)
    (hwf : (match op with
      | .findPartner sock _ _ => (regOf s sock).isNone && s.live.contains sock
      | _ => true) = true) : Inv (step s op) := by
  cases op with
  | connect sock => exact inv_hConnect sock hInv
  | findPartner sock d now =>
    simp only [Bool.and_eq_true, Option.isNone_iff_eq_none] at hwf
    exact inv_hFindPartner sock d now hInv hwf.1 hwf.2
  | offer sock valid now => exact inv_hOffer sock valid now hInv
  | answer sock valid now => exact inv_hAnswer sock valid now hInv
  | iceCandidate sock valid now => exact inv_hIce sock valid now hInv
  | endCall sock now => exact inv_hEndCall sock now hInv
  | report sock reason now => exact inv_hReport sock reason now hInv
  | disconnect sock now => exact inv_hDisconnect sock now hInv
  | sweep now => exact inv_cleanup now hInv

theorem inv_run {s : St} (ops : List Op) (hInv : Inv s)
    (hwf : FreshTrace s ops = true) : Inv (run s ops) := by
  induction ops generalizing s with
  | nil => exact hInv
  | cons op rest ih =>
    unfold FreshTrace at hwf
    rw [Bool.and_eq_true] at hwf
    exact ih (inv_step op hInv hwf.1) hwf.2

theorem inv_pairingSymmetric {s : St} (hInv : Inv s) : PairingSymmetric s := by
  intro a b ra rb ua ub hra hua hrb hub hpa hma
  obtain ⟨pr, pu, hpr, hpu, hback⟩ := hInv.sym a ra ua b hra hua hpa
  rw [hrb, Option.some.injEq] at hpr
  subst hpr
  rw [hub, Option.some.injEq] at hpu
  subst hpu
  refine ⟨hback, ?_⟩
  rw [hInv.coupled b rb ub hrb hub, hback]
  rfl

theorem inBucketB_iff (s : St) (q : List Nat) (c : String) :
    inBucketB s q c = true ↔ ∃ r ∈ q, ∃ u, heapOf s r = some u ∧ u.socketId = c := by
  unfold inBucketB
  rw [List.any_eq_true]
  constructor
  · rintro ⟨r, hr, hpred⟩
    refine ⟨r, hr, ?_⟩
    rcases hu : heapOf s r with _ | u
    · rw [hu] at hpred
      exact absurd hpred (by simp)
    · rw [hu] at hpred
      dsimp only at hpred
      exact ⟨u, rfl, by simpa using hpred⟩
  · rintro ⟨r, hr, u, hu, hs⟩
    refine ⟨r, hr, ?_⟩
    rw [hu]
    simpa using hs

theorem inv_claimC2 {s : St} (hInv : Inv s) : ClaimC2 s := by
  have hsM : ∀ x ∈ s.qMale, x ∈ queueRefs s := by
    intro x hx
    unfold queueRefs
    simp [hx]
  have hsF : ∀ x ∈ s.qFemale, x ∈ queueRefs s := by
    intro x hx
    unfold queueRefs
    simp [hx]
  have hsO : ∀ x ∈ s.qOther, x ∈ queueRefs s := by
    intro x hx
    unfold queueRefs
    simp [hx]
  have hsA : ∀ x ∈ s.qAny, x ∈ queueRefs s := by
    intro x hx
    unfold queueRefs
    simp [hx]
  have hbs : ∀ q ∈ buckets s, ∀ x ∈ q, x ∈ queueRefs s := by
    intro q hq
    simp only [buckets, List.mem_cons, List.not_mem_nil, or_false] at hq
    rcases hq with rfl | rfl | rfl | rfl
    · exact hsM
    · exact hsF
    · exact hsO
    · exact hsA
  refine ⟨?_, ?_, ?_⟩
  · intro c
    have hwit : ∀ q, (∀ x ∈ q, x ∈ queueRefs s) → inBucketB s q c = true →
        ∃ r, regOf s c = some r ∧ r ∈ q := by
      intro q hsub hb
      obtain ⟨r, hrq, u, hu, hsId⟩ := (inBucketB_iff s q c).mp hb
      obtain ⟨w, hw, hwm, hwp, hwr⟩ := hInv.queued r (hsub r hrq)
      rw [hu, Option.some.injEq] at hw
      subst hw
      rw [hsId] at hwr
      exact ⟨r, hwr, hrq⟩
    have hc : ∀ r : Nat,
        s.qMale.count r + s.qFemale.count r + s.qOther.count r + s.qAny.count r ≤ 1 := by
      intro r
      have hcount := List.nodup_iff_count_le_one.mp hInv.queueNodup r
      simp only [queueRefs, List.count_append] at hcount
      omega
    have hpair : ∀ qa qb : List Nat, (∀ x ∈ qa, x ∈ queueRefs s) →
        (∀ x ∈ qb, x ∈ queueRefs s) →
        inBucketB s qa c = true → inBucketB s qb c = true →
        ∃ r, r ∈ qa ∧ r ∈ qb := by
      intro qa qb hsa hsb ha hb
      obtain ⟨r1, hr1, hm1⟩ := hwit qa hsa ha
      obtain ⟨r2, hr2, hm2⟩ := hwit qb hsb hb
      rw [hr1, Option.some.injEq] at hr2
      subst hr2
      exact ⟨r1, hm1, hm2⟩
    have hMF : ¬(inBucketB s s.qMale c = true ∧ inBucketB s s.qFemale c = true) := by
      rintro ⟨ha, hb⟩
      obtain ⟨r, hma, hmb⟩ := hpair _ _ hsM hsF ha hb
      have c1 := List.count_pos_iff.mpr hma
      have c2 := List.count_pos_iff.mpr hmb
      have := hc r
      omega
    have hMO : ¬(inBucketB s s.qMale c = true ∧ inBucketB s s.qOther c = true) := by
      rintro ⟨ha, hb⟩
      obtain ⟨r, hma, hmb⟩ := hpair _ _ hsM hsO ha hb
      have c1 := List.count_pos_iff.mpr hma
      have c2 := List.count_pos_iff.mpr hmb
      have := hc r
      omega
    have hMA : ¬(inBucketB s s.qMale c = true ∧ inBucketB s s.qAny c = true) := by
      rintro ⟨ha, hb⟩
      obtain ⟨r, hma, hmb⟩ := hpair _ _ hsM hsA ha hb
      have c1 := List.count_pos_iff.mpr hma
      have c2 := List.count_pos_iff.mpr hmb
      have := hc r
      omega
    have hFO : ¬(inBucketB s s.qFemale c = true ∧ inBucketB s s.qOther c = true) := by
      rintro ⟨ha, hb⟩
      obtain ⟨r, hma, hmb⟩ := hpair _ _ hsF hsO ha hb
      have c1 := List.count_pos_iff.mpr hma
      have c2 := List.count_pos_iff.mpr hmb
      have := hc r
      omega
    have hFA : ¬(inBucketB s s.qFemale c = true ∧ inBucketB s s.qAny c = true) := by
      rintro ⟨ha, hb⟩
      obtain ⟨r, hma, hmb⟩ := hpair _ _ hsF hsA ha hb
      have c1 := List.count_pos_iff.mpr hma
      have c2 := List.count_pos_iff.mpr hmb
      have := hc r
      omega
    have hOA : ¬(inBucketB s s.qOther c = true ∧ inBucketB s s.qAny c = true) := by
      rintro ⟨ha, hb⟩
      obtain ⟨r, hma, hmb⟩ := hpair _ _ hsO hsA ha hb
      have c1 := List.count_pos_iff.mpr hma
      have c2 := List.count_pos_iff.mpr hmb
      have := hc r
      omega
    clear hwit hc hpair hbs hsM hsF hsO hsA
    simp only [buckets, List.countP_cons, List.countP_nil]
    by_cases h1 : inBucketB s s.qMale c = true <;>
      by_cases h2 : inBucketB s s.qFemale c = true <;>
      by_cases h3 : inBucketB s s.qOther c = true <;>
      by_cases h4 : inBucketB s s.qAny c = true <;>
      simp_all
  · rintro c ⟨q, hq, hb⟩ ⟨b, rb, ub, hrb, hub, hm, hp⟩
    obtain ⟨r, hrq, u, hu, hsId⟩ := (inBucketB_iff s q c).mp hb
    obtain ⟨w, hw, hwm, hwp, hwr⟩ := hInv.queued r (hbs q hq r hrq)
    rw [hu, Option.some.injEq] at hw
    subst hw
    rw [hsId] at hwr
    obtain ⟨pr, pu, hpr, hpu, hback⟩ := hInv.sym b rb ub c hrb hub hp
    rw [hwr, Option.some.injEq] at hpr
    subst hpr
    rw [hu, Option.some.injEq] at hpu
    subst hpu
    rw [hwp] at hback
    exact absurd hback (by simp)
  · intro c b b' rb rb' ub ub' hb1 hb2 hb3 hb4 hb1' hb2' hb3' hb4'
    obtain ⟨pr, pu, hpr, hpu, hback⟩ := hInv.sym b rb ub c hb1 hb2 hb4
    obtain ⟨pr', pu', hpr', hpu', hback'⟩ := hInv.sym b' rb' ub' c hb1' hb2' hb4'
    rw [hpr, Option.some.injEq] at hpr'
    subst hpr'
    rw [hpu, Option.some.injEq] at hpu'
    subst hpu'
    rw [hback, Option.some.injEq] at hback'
    exact hback'

/-- C1 (amended): on every operation sequence in which each announce-intent
(`findPartner`) comes from a connected socket that is not currently
registered, the reachable state has symmetric pairing pointers among
registered participants, and each participant object names at most one
partner. -/
theorem c1_amended_pairing_symmetric (ops : List Op)
    (h : FreshTrace initState ops = true) :
    PairingSymmetric (run initState ops) ∧
    (∀ c rc uc p q, regOf (run initState ops) c = some rc →
      heapOf (run initState ops) rc = some uc →
      uc.partnerId = some p → uc.partnerId = some q → p = q) := by
  refine ⟨inv_pairingSymmetric (inv_run ops inv_init h), ?_⟩
  intro c rc uc p q h1 h2 hp hq
  rw [hp, Option.some.injEq] at hq
  exact hq

/-- C1 witness: the fresh-announce trace pairing `s1` with `s2` satisfies
the trace restriction, and the amended theorem yields pairing symmetry of
the resulting state. -/
theorem c1_witness : FreshTrace initState pairedTrace = true ∧
    PairingSymmetric (run initState pairedTrace) :=
  ⟨by decide, (c1_amended_pairing_symmetric pairedTrace (by decide)).1⟩

/-- C2 (amended): on every operation sequence in which each announce-intent
comes from a connected, currently-unregistered socket, no connection id
occupies more than one waiting bucket, none is queued while paired, and
none is in two simultaneous pairs. -/
theorem c2_amended_queue_invariants (ops : List Op)
    (h : FreshTrace initState ops = true) : ClaimC2 (run initState ops) :=
  inv_claimC2 (inv_run ops inv_init h)

/-- C2 witness: the fresh-announce trace with three mutually-incompatible
announcers satisfies the trace restriction, and the amended theorem yields
the bucket invariants of the resulting state. -/
theorem c2_witness : FreshTrace initState threeXTrace = true ∧
    ClaimC2 (run initState threeXTrace) :=
  ⟨by decide, c2_amended_queue_invariants threeXTrace (by decide)⟩


end Broker
